import Mathlib

/-!
Verification of the Connect-4 game core (state model, win detection,
adversarial search, serialization and the host-authoritative network
handler) against its natural-language specification.

The definitions below are a shallow embedding of the Python source
(test.py).  Boards are lists of rows of cells (row 0 is the top row),
cells are 0 (empty), 1 or 2; out-of-range reads default to 0, matching
index-safe access on a well-formed 6 x 7 grid.  Fallible operations
(raising ValueError in the source) return Except values.  The single
global random generator of the source is modelled by an explicit
choice oracle passed to the functions that consume randomness.
-/

/-- Number of board rows (constant ROWS in the source). -/
def ROWS : Nat := 6

/-- Number of board columns (constant COLS in the source). -/
def COLS : Nat := 7

/-- A board: list of rows, each a list of cells; cell values 0, 1, 2. -/
abbrev Board := List (List Nat)

/-- Read cell (r, c); out-of-range reads give 0 (the source only reads
in-range cells of a well-formed board). -/
def cell (b : Board) (r c : Nat) : Nat := (b.getD r []).getD c 0

/-- Write cell (r, c) (the assignment board[row][col] = piece). -/
def setCell (b : Board) (r c v : Nat) : Board := b.set r ((b.getD r []).set c v)

/-- The GameState record of the source.  The last_move field holds the
JSON-level encoding (a 3-element array) because after a round trip the
source stores a plain list there. -/
structure GameState where
  board : Board
  current_player : Nat
  game_over : Bool
  winner : Nat
  move_count : Nat
  mode : String
  ai_level : String
  last_move : Option (List Int)
  local_player : Nat
  first_player_decided : Bool
deriving DecidableEq

/-- The default GameState() constructor of the source. -/
def GameState.init (mode ai_level : String) : GameState :=
  { board := List.replicate 6 (List.replicate 7 0)
  , current_player := 1
  , game_over := false
  , winner := 0
  , move_count := 0
  , mode := mode
  , ai_level := ai_level
  , last_move := none
  , local_player := 1
  , first_player_decided := false }

/-- valid_moves: the columns whose top cell is empty. -/
def valid_moves (gs : GameState) : List Nat :=
  (List.range COLS).filter (fun c => cell gs.board 0 c == 0)

/-- Shared window condition of the horizontal scan:
v = board[r][c] nonzero and equal to the next three cells to the right. -/
def hCond (b : Board) (r c : Nat) : Bool :=
  (cell b r c != 0) && (cell b r (c+1) == cell b r c)
    && (cell b r (c+2) == cell b r c) && (cell b r (c+3) == cell b r c)

/-- Window condition of the vertical scan. -/
def vCond (b : Board) (r c : Nat) : Bool :=
  (cell b r c != 0) && (cell b (r+1) c == cell b r c)
    && (cell b (r+2) c == cell b r c) && (cell b (r+3) c == cell b r c)

/-- Window condition of the down-right diagonal scan. -/
def d1Cond (b : Board) (r c : Nat) : Bool :=
  (cell b r c != 0) && (cell b (r+1) (c+1) == cell b r c)
    && (cell b (r+2) (c+2) == cell b r c) && (cell b (r+3) (c+3) == cell b r c)

/-- Window condition of the up-right diagonal scan. -/
def d2Cond (b : Board) (r c : Nat) : Bool :=
  (cell b r c != 0) && (cell b (r-1) (c+1) == cell b r c)
    && (cell b (r-2) (c+2) == cell b r c) && (cell b (r-3) (c+3) == cell b r c)

/-- Scan order of the horizontal loops: r in range(ROWS) outer,
c in range(COLS-3) inner; pairs are (r, c). -/
def hPairs : List (Nat × Nat) :=
  (List.range 6).flatMap (fun r => (List.range 4).map (fun c => (r, c)))

/-- Scan order of the vertical loops: c outer, r inner; pairs are (c, r). -/
def vPairs : List (Nat × Nat) :=
  (List.range 7).flatMap (fun c => (List.range 3).map (fun r => (c, r)))

/-- Scan order of the down-right diagonal loops; pairs are (r, c). -/
def d1Pairs : List (Nat × Nat) :=
  (List.range 3).flatMap (fun r => (List.range 4).map (fun c => (r, c)))

/-- Scan order of the up-right diagonal loops: r in range(3, ROWS); pairs (r, c). -/
def d2Pairs : List (Nat × Nat) :=
  ((List.range 3).map (fun i => 3 + i)).flatMap
    (fun r => (List.range 4).map (fun c => (r, c)))

/-- Horizontal scan of check_winner: value of the first matching window. -/
def hScan (b : Board) : Option Nat :=
  hPairs.findSome? (fun p => if hCond b p.1 p.2 then some (cell b p.1 p.2) else none)

/-- Vertical scan of check_winner. -/
def vScan (b : Board) : Option Nat :=
  vPairs.findSome? (fun p => if vCond b p.2 p.1 then some (cell b p.2 p.1) else none)

/-- Down-right diagonal scan of check_winner. -/
def d1Scan (b : Board) : Option Nat :=
  d1Pairs.findSome? (fun p => if d1Cond b p.1 p.2 then some (cell b p.1 p.2) else none)

/-- Up-right diagonal scan of check_winner. -/
def d2Scan (b : Board) : Option Nat :=
  d2Pairs.findSome? (fun p => if d2Cond b p.1 p.2 then some (cell b p.1 p.2) else none)

/-- check_winner: first matching window in the fixed scan order, else 0. -/
def check_winner (b : Board) : Nat :=
  match hScan b with
  | some v => v
  | none =>
  match vScan b with
  | some v => v
  | none =>
  match d1Scan b with
  | some v => v
  | none =>
  match d2Scan b with
  | some v => v
  | none => 0

/-- Horizontal scan of get_winning_positions: coordinates of the first
matching window. -/
def hScanP (b : Board) : Option (List (Nat × Nat)) :=
  hPairs.findSome? (fun p =>
    if hCond b p.1 p.2 then some [(p.1, p.2), (p.1, p.2+1), (p.1, p.2+2), (p.1, p.2+3)] else none)

/-- Vertical scan of get_winning_positions. -/
def vScanP (b : Board) : Option (List (Nat × Nat)) :=
  vPairs.findSome? (fun p =>
    if vCond b p.2 p.1 then some [(p.2, p.1), (p.2+1, p.1), (p.2+2, p.1), (p.2+3, p.1)] else none)

/-- Down-right diagonal scan of get_winning_positions. -/
def d1ScanP (b : Board) : Option (List (Nat × Nat)) :=
  d1Pairs.findSome? (fun p =>
    if d1Cond b p.1 p.2 then some [(p.1, p.2), (p.1+1, p.2+1), (p.1+2, p.2+2), (p.1+3, p.2+3)] else none)

/-- Up-right diagonal scan of get_winning_positions. -/
def d2ScanP (b : Board) : Option (List (Nat × Nat)) :=
  d2Pairs.findSome? (fun p =>
    if d2Cond b p.1 p.2 then some [(p.1, p.2), (p.1-1, p.2+1), (p.1-2, p.2+2), (p.1-3, p.2+3)] else none)

/-- get_winning_positions: same scans as check_winner, returning the four
cell coordinates of the first matching window, else the empty list. -/
def get_winning_positions (b : Board) : List (Nat × Nat) :=
  match hScanP b with
  | some l => l
  | none =>
  match vScanP b with
  | some l => l
  | none =>
  match d1ScanP b with
  | some l => l
  | none =>
  match d2ScanP b with
  | some l => l
  | none => []

/-- make_move: validity guard, gravity drop via the first empty row scanning
from the bottom (reversed(range(ROWS))), then the derived-field updates.
The inner match on find? is total; the none branch is unreachable because
the guard guarantees row 0 of the column is empty. -/
def make_move (gs : GameState) (col : Int) (player : Nat) :
    Except String (GameState × Nat) :=
  if col < 0 ∨ (COLS : Int) ≤ col ∨ cell gs.board 0 col.toNat ≠ 0 then
    Except.error "Invalid move"
  else
    match ((List.range ROWS).reverse).find? (fun r => cell gs.board r col.toNat == 0) with
    | none => Except.error "Invalid move"
    | some row =>
      let board := setCell gs.board row col.toNat player
      let w := check_winner board
      let mc := gs.move_count + 1
      Except.ok
        ({ gs with
            board := board
          , last_move := some [col, (row : Int), (player : Int)]
          , move_count := mc
          , current_player := if player = 1 then 2 else 1
          , game_over := if w ≠ 0 then true else if ROWS * COLS ≤ mc then true else gs.game_over
          , winner := if w ≠ 0 then w else if ROWS * COLS ≤ mc then 3 else gs.winner }
        , row)

/-- Number of non-empty cells of the 6 x 7 grid. -/
def countPieces (b : Board) : Nat :=
  ((List.range 6).map (fun r => ((List.range 7).filter (fun c => cell b r c != 0)).length)).sum

/-- Well-formed 6 x 7 board. -/
def WFBoard (b : Board) : Prop := b.length = 6 ∧ ∀ row ∈ b, row.length = 7

/-- Every cell of the 6 x 7 grid is occupied. -/
def boardFull (b : Board) : Prop := ∀ r, r < 6 → ∀ c, c < 7 → cell b r c ≠ 0

/-- The JSON document produced by GameState.to_json: one key per field of
the instance dictionary, board as a 2-D array, last_move an array or null. -/
structure GSDoc where
  board : List (List Nat)
  current_player : Nat
  game_over : Bool
  winner : Nat
  move_count : Nat
  mode : String
  ai_level : String
  last_move : Option (List Int)
  local_player : Nat
  first_player_decided : Bool
deriving DecidableEq

/-- to_json: serialize the whole instance dictionary. -/
def GameState.to_json (gs : GameState) : GSDoc :=
  { board := gs.board
  , current_player := gs.current_player
  , game_over := gs.game_over
  , winner := gs.winner
  , move_count := gs.move_count
  , mode := gs.mode
  , ai_level := gs.ai_level
  , last_move := gs.last_move
  , local_player := gs.local_player
  , first_player_decided := gs.first_player_decided }

/-- from_json: build a default GameState, then overwrite its dictionary
with every key of the document (gs.__dict__.update(d)); a document
produced by to_json carries all ten keys, so every field is overwritten. -/
def GameState.from_json (d : GSDoc) : GameState :=
  { board := d.board
  , current_player := d.current_player
  , game_over := d.game_over
  , winner := d.winner
  , move_count := d.move_count
  , mode := d.mode
  , ai_level := d.ai_level
  , last_move := d.last_move
  , local_player := d.local_player
  , first_player_decided := d.first_player_decided }

/-! ## Specification-side predicates (written from the words of the spec) -/

/-- A horizontal line of four cells holding p starting at (r, c). -/
def HLineAt (b : Board) (p r c : Nat) : Prop :=
  cell b r c = p ∧ cell b r (c+1) = p ∧ cell b r (c+2) = p ∧ cell b r (c+3) = p

/-- A vertical line of four cells holding p starting at (r, c). -/
def VLineAt (b : Board) (p r c : Nat) : Prop :=
  cell b r c = p ∧ cell b (r+1) c = p ∧ cell b (r+2) c = p ∧ cell b (r+3) c = p

/-- A down-right diagonal line of four cells holding p starting at (r, c). -/
def D1LineAt (b : Board) (p r c : Nat) : Prop :=
  cell b r c = p ∧ cell b (r+1) (c+1) = p ∧ cell b (r+2) (c+2) = p ∧ cell b (r+3) (c+3) = p

/-- An up-right diagonal line of four cells holding p starting at (r, c). -/
def D2LineAt (b : Board) (p r c : Nat) : Prop :=
  cell b r c = p ∧ cell b (r-1) (c+1) = p ∧ cell b (r-2) (c+2) = p ∧ cell b (r-3) (c+3) = p

/-- Some line of four consecutive identical non-empty cells for player p
exists on the 6 x 7 grid, in some direction. -/
def HasLine (b : Board) (p : Nat) : Prop :=
  p ≠ 0 ∧
  ((∃ r, r < 6 ∧ ∃ c, c < 4 ∧ HLineAt b p r c) ∨
   (∃ c, c < 7 ∧ ∃ r, r < 3 ∧ VLineAt b p r c) ∨
   (∃ r, r < 3 ∧ ∃ c, c < 4 ∧ D1LineAt b p r c) ∨
   (∃ r, 3 ≤ r ∧ r < 6 ∧ ∃ c, c < 4 ∧ D2LineAt b p r c))

/-! ## Generic facts about the option-returning first-match scans -/

theorem findSome?_if_eq_some {α β : Type} {l : List α} {cond : α → Bool} {val : α → β} {v : β}
    (h : l.findSome? (fun x => if cond x then some (val x) else none) = some v) :
    ∃ x ∈ l, cond x = true ∧ val x = v := by
  obtain ⟨x, hx, hfx⟩ := List.exists_of_findSome?_eq_some h
  by_cases hc : cond x
  · refine ⟨x, hx, hc, ?_⟩
    simpa [hc] using hfx
  · simp [hc] at hfx

theorem findSome?_if_eq_none {α β : Type} {l : List α} {cond : α → Bool} {val : α → β}
    (h : l.findSome? (fun x => if cond x then some (val x) else none) = none) :
    ∀ x ∈ l, cond x = false := by
  intro x hx
  have := (List.findSome?_eq_none_iff).mp h x hx
  by_cases hc : cond x
  · simp [hc] at this
  · simpa using hc

theorem findSome?_if_ne_none {α β : Type} {l : List α} {cond : α → Bool} {val : α → β}
    {x : α} (hx : x ∈ l) (hc : cond x = true) :
    l.findSome? (fun x => if cond x then some (val x) else none) ≠ none := by
  intro h
  have := findSome?_if_eq_none h x hx
  rw [hc] at this
  simp at this

/-- Two first-match scans over the same list with the same condition fire at
the same first element: if both return a value, the two values come from one
common element of the list. -/
theorem findSome?_if_align {α β γ : Type} {cond : α → Bool} {f : α → β} {g : α → γ} :
    ∀ (l : List α) {v w},
      l.findSome? (fun x => if cond x then some (f x) else none) = some v →
      l.findSome? (fun x => if cond x then some (g x) else none) = some w →
      ∃ x ∈ l, cond x = true ∧ f x = v ∧ g x = w := by
  intro l
  induction l with
  | nil => intro v w hv _; simp [List.findSome?] at hv
  | cons a t ih =>
    intro v w hv hw
    by_cases hc : cond a
    · simp only [List.findSome?, hc, if_pos] at hv hw
      exact ⟨a, List.mem_cons_self a t, hc, Option.some_inj.mp hv, Option.some_inj.mp hw⟩
    · simp only [List.findSome?, hc, if_neg, Bool.false_eq_true] at hv hw
      obtain ⟨x, hx, h1, h2, h3⟩ := ih hv hw
      exact ⟨x, List.mem_cons_of_mem a hx, h1, h2, h3⟩

/-- The two scans of one direction return none together. -/
theorem findSome?_if_none_align {α β γ : Type} {cond : α → Bool} {f : α → β} {g : α → γ}
    (l : List α) :
    l.findSome? (fun x => if cond x then some (f x) else none) = none ↔
    l.findSome? (fun x => if cond x then some (g x) else none) = none := by
  constructor
  · intro h
    rw [List.findSome?_eq_none_iff]
    intro x hx
    have := findSome?_if_eq_none h x hx
    simp [this]
  · intro h
    rw [List.findSome?_eq_none_iff]
    intro x hx
    have := findSome?_if_eq_none h x hx
    simp [this]

/-! ## Scan-order membership and window conditions -/

theorem mem_hPairs {r c : Nat} : (r, c) ∈ hPairs ↔ r < 6 ∧ c < 4 := by
  simp only [hPairs, List.mem_flatMap, List.mem_map, List.mem_range, Prod.mk.injEq]
  constructor
  · rintro ⟨a, ha, b, hb, h1, h2⟩
    omega
  · rintro ⟨h1, h2⟩
    exact ⟨r, h1, c, h2, rfl, rfl⟩

theorem mem_vPairs {c r : Nat} : (c, r) ∈ vPairs ↔ c < 7 ∧ r < 3 := by
  simp only [vPairs, List.mem_flatMap, List.mem_map, List.mem_range, Prod.mk.injEq]
  constructor
  · rintro ⟨a, ha, b, hb, h1, h2⟩
    omega
  · rintro ⟨h1, h2⟩
    exact ⟨c, h1, r, h2, rfl, rfl⟩

theorem mem_d1Pairs {r c : Nat} : (r, c) ∈ d1Pairs ↔ r < 3 ∧ c < 4 := by
  simp only [d1Pairs, List.mem_flatMap, List.mem_map, List.mem_range, Prod.mk.injEq]
  constructor
  · rintro ⟨a, ha, b, hb, h1, h2⟩
    omega
  · rintro ⟨h1, h2⟩
    exact ⟨r, h1, c, h2, rfl, rfl⟩

theorem mem_d2Pairs {r c : Nat} : (r, c) ∈ d2Pairs ↔ (3 ≤ r ∧ r < 6) ∧ c < 4 := by
  simp only [d2Pairs, List.mem_flatMap, List.mem_map, List.mem_range, Prod.mk.injEq]
  constructor
  · rintro ⟨a, ⟨i, hi, hia⟩, b, hb, h1, h2⟩
    omega
  · rintro ⟨⟨h0, h1⟩, h2⟩
    exact ⟨r, ⟨r - 3, by omega, by omega⟩, c, h2, rfl, rfl⟩

theorem hCond_iff {b : Board} {r c : Nat} :
    hCond b r c = true ↔ cell b r c ≠ 0 ∧ HLineAt b (cell b r c) r c := by
  simp only [hCond, HLineAt, Bool.and_eq_true, bne_iff_ne, beq_iff_eq, ne_eq]
  tauto

theorem vCond_iff {b : Board} {r c : Nat} :
    vCond b r c = true ↔ cell b r c ≠ 0 ∧ VLineAt b (cell b r c) r c := by
  simp only [vCond, VLineAt, Bool.and_eq_true, bne_iff_ne, beq_iff_eq, ne_eq]
  tauto

theorem d1Cond_iff {b : Board} {r c : Nat} :
    d1Cond b r c = true ↔ cell b r c ≠ 0 ∧ D1LineAt b (cell b r c) r c := by
  simp only [d1Cond, D1LineAt, Bool.and_eq_true, bne_iff_ne, beq_iff_eq, ne_eq]
  tauto

theorem d2Cond_iff {b : Board} {r c : Nat} :
    d2Cond b r c = true ↔ cell b r c ≠ 0 ∧ D2LineAt b (cell b r c) r c := by
  simp only [d2Cond, D2LineAt, Bool.and_eq_true, bne_iff_ne, beq_iff_eq, ne_eq]
  tauto

/-- If any line for p exists, the corresponding scan fires. -/
theorem hScan_ne_none {b : Board} {p r c : Nat} (hp : p ≠ 0) (hr : r < 6) (hc : c < 4)
    (h : HLineAt b p r c) : hScan b ≠ none := by
  have hcell : cell b r c = p := h.1
  have : hCond b r c = true := by
    rw [hCond_iff, hcell]
    exact ⟨hp, h⟩
  exact findSome?_if_ne_none (mem_hPairs.mpr ⟨hr, hc⟩) this

theorem vScan_ne_none {b : Board} {p r c : Nat} (hp : p ≠ 0) (hc : c < 7) (hr : r < 3)
    (h : VLineAt b p r c) : vScan b ≠ none := by
  have hcell : cell b r c = p := h.1
  have : vCond b r c = true := by
    rw [vCond_iff, hcell]
    exact ⟨hp, h⟩
  exact findSome?_if_ne_none (mem_vPairs.mpr ⟨hc, hr⟩) this

theorem d1Scan_ne_none {b : Board} {p r c : Nat} (hp : p ≠ 0) (hr : r < 3) (hc : c < 4)
    (h : D1LineAt b p r c) : d1Scan b ≠ none := by
  have hcell : cell b r c = p := h.1
  have : d1Cond b r c = true := by
    rw [d1Cond_iff, hcell]
    exact ⟨hp, h⟩
  exact findSome?_if_ne_none (mem_d1Pairs.mpr ⟨hr, hc⟩) this

theorem d2Scan_ne_none {b : Board} {p r c : Nat} (hp : p ≠ 0) (hr0 : 3 ≤ r) (hr : r < 6)
    (hc : c < 4) (h : D2LineAt b p r c) : d2Scan b ≠ none := by
  have hcell : cell b r c = p := h.1
  have : d2Cond b r c = true := by
    rw [d2Cond_iff, hcell]
    exact ⟨hp, h⟩
  exact findSome?_if_ne_none (mem_d2Pairs.mpr ⟨⟨hr0, hr⟩, hc⟩) this

/-- A scan that fires yields the value of a real line. -/
theorem hScan_some {b : Board} {v : Nat} (h : hScan b = some v) :
    v ≠ 0 ∧ ∃ r, r < 6 ∧ ∃ c, c < 4 ∧ HLineAt b v r c := by
  obtain ⟨x, hx, hcond, hval⟩ := findSome?_if_eq_some h
  obtain ⟨hne, hline⟩ := hCond_iff.mp hcond
  obtain ⟨hr, hc⟩ := mem_hPairs.mp (by simpa using hx)
  subst hval
  exact ⟨hne, x.1, hr, x.2, hc, hline⟩

theorem vScan_some {b : Board} {v : Nat} (h : vScan b = some v) :
    v ≠ 0 ∧ ∃ c, c < 7 ∧ ∃ r, r < 3 ∧ VLineAt b v r c := by
  obtain ⟨x, hx, hcond, hval⟩ := findSome?_if_eq_some h
  obtain ⟨hne, hline⟩ := vCond_iff.mp hcond
  obtain ⟨hc, hr⟩ := mem_vPairs.mp (by simpa using hx)
  subst hval
  exact ⟨hne, x.1, hc, x.2, hr, hline⟩

theorem d1Scan_some {b : Board} {v : Nat} (h : d1Scan b = some v) :
    v ≠ 0 ∧ ∃ r, r < 3 ∧ ∃ c, c < 4 ∧ D1LineAt b v r c := by
  obtain ⟨x, hx, hcond, hval⟩ := findSome?_if_eq_some h
  obtain ⟨hne, hline⟩ := d1Cond_iff.mp hcond
  obtain ⟨hr, hc⟩ := mem_d1Pairs.mp (by simpa using hx)
  subst hval
  exact ⟨hne, x.1, hr, x.2, hc, hline⟩

theorem d2Scan_some {b : Board} {v : Nat} (h : d2Scan b = some v) :
    v ≠ 0 ∧ ∃ r, 3 ≤ r ∧ r < 6 ∧ ∃ c, c < 4 ∧ D2LineAt b v r c := by
  obtain ⟨x, hx, hcond, hval⟩ := findSome?_if_eq_some h
  obtain ⟨⟨hr0, hr⟩, hc⟩ := mem_d2Pairs.mp (by simpa using hx)
  obtain ⟨hne, hline⟩ := d2Cond_iff.mp hcond
  subst hval
  exact ⟨hne, x.1, hr0, hr, x.2, hc, hline⟩

/-- If check_winner returns 0, every directional scan came up empty. -/
theorem scans_none_of_check_winner_zero {b : Board} (h : check_winner b = 0) :
    hScan b = none ∧ vScan b = none ∧ d1Scan b = none ∧ d2Scan b = none := by
  cases hh : hScan b with
  | some v =>
    rw [check_winner, hh] at h
    exact absurd h (hScan_some hh).1
  | none =>
  cases hv : vScan b with
  | some v =>
    rw [check_winner, hh, hv] at h
    exact absurd h (vScan_some hv).1
  | none =>
  cases h1 : d1Scan b with
  | some v =>
    rw [check_winner, hh, hv, h1] at h
    exact absurd h (d1Scan_some h1).1
  | none =>
  cases h2 : d2Scan b with
  | some v =>
    rw [check_winner, hh, hv, h1, h2] at h
    exact absurd h (d2Scan_some h2).1
  | none => exact ⟨rfl, rfl, rfl, rfl⟩

/-- Full characterization of check_winner against the specification
predicate: it returns 0 exactly when no line exists, and a nonzero return
value always owns a line. -/
theorem check_winner_spec (b : Board) :
    (check_winner b = 0 ↔ ¬ ∃ p, HasLine b p) ∧
    (check_winner b ≠ 0 → HasLine b (check_winner b)) := by
  have hpos : check_winner b ≠ 0 → HasLine b (check_winner b) := by
    intro hne
    cases hh : hScan b with
    | some v =>
      rw [check_winner, hh]
      obtain ⟨hv, r, hr, c, hc, hline⟩ := hScan_some hh
      exact ⟨hv, Or.inl ⟨r, hr, c, hc, hline⟩⟩
    | none =>
    cases hv : vScan b with
    | some v =>
      rw [check_winner, hh, hv]
      obtain ⟨hv0, c, hc, r, hr, hline⟩ := vScan_some hv
      exact ⟨hv0, Or.inr (Or.inl ⟨c, hc, r, hr, hline⟩)⟩
    | none =>
    cases h1 : d1Scan b with
    | some v =>
      rw [check_winner, hh, hv, h1]
      obtain ⟨hv0, r, hr, c, hc, hline⟩ := d1Scan_some h1
      exact ⟨hv0, Or.inr (Or.inr (Or.inl ⟨r, hr, c, hc, hline⟩))⟩
    | none =>
    cases h2 : d2Scan b with
    | some v =>
      rw [check_winner, hh, hv, h1, h2]
      obtain ⟨hv0, r, hr0, hr, c, hc, hline⟩ := d2Scan_some h2
      exact ⟨hv0, Or.inr (Or.inr (Or.inr ⟨r, hr0, hr, c, hc, hline⟩))⟩
    | none =>
      exfalso
      exact hne (by rw [check_winner, hh, hv, h1, h2])
  refine ⟨⟨?_, ?_⟩, hpos⟩
  · intro h0 hexists
    obtain ⟨p, hp, hcase⟩ := hexists
    obtain ⟨hh, hv, h1, h2⟩ := scans_none_of_check_winner_zero h0
    rcases hcase with ⟨r, hr, c, hc, hl⟩ | ⟨c, hc, r, hr, hl⟩ |
      ⟨r, hr, c, hc, hl⟩ | ⟨r, hr0, hr, c, hc, hl⟩
    · exact hScan_ne_none hp hr hc hl hh
    · exact vScan_ne_none hp hc hr hl hv
    · exact d1Scan_ne_none hp hr hc hl h1
    · exact d2Scan_ne_none hp hr0 hr hc hl h2
  · intro hno
    by_contra hne
    exact hno ⟨check_winner b, hpos hne⟩

/-- A board holding a horizontal line for each player: row 4 holds four 2s,
row 5 holds four 1s; the fixed scan order meets the 2s first. -/
def twoLinesBoard : Board :=
  [[0,0,0,0,0,0,0], [0,0,0,0,0,0,0], [0,0,0,0,0,0,0], [0,0,0,0,0,0,0],
   [2,2,2,2,0,0,0], [1,1,1,1,0,0,0]]

/-- Claim C3, counterexample: a line of four 1s exists on twoLinesBoard,
yet check_winner returns 2 (the first line in scan order), so the clause
that check_winner returns p whenever a line for p exists is false. -/
theorem claim3_counterexample :
    HasLine twoLinesBoard 1 ∧ check_winner twoLinesBoard = 2 := by
  constructor
  · exact ⟨by decide, Or.inl ⟨5, by decide, 0, by decide, by decide, by decide, by decide, by decide⟩⟩
  · decide

/-- Claim C3 (amended): check_winner returns 0 iff no line of four
consecutive identical non-empty cells exists in any direction, and a
nonzero result is always the owner of an existing line (when lines exist
for both players, the one found first in the fixed scan order wins). -/
theorem claim3_check_winner (b : Board) :
    (check_winner b = 0 ↔ ¬ ∃ p, HasLine b p) ∧
    (check_winner b ≠ 0 → HasLine b (check_winner b)) := check_winner_spec b

/-- Claim C3, witness: the amended theorem evaluated on the concrete
two-line board. -/
theorem claim3_witness :
    (check_winner twoLinesBoard = 0 ↔ ¬ ∃ p, HasLine twoLinesBoard p) ∧
    (check_winner twoLinesBoard ≠ 0 → HasLine twoLinesBoard (check_winner twoLinesBoard)) :=
  claim3_check_winner twoLinesBoard

/-- Claim C10: get_winning_positions is empty exactly when check_winner
finds no winner; otherwise it returns the four coordinates of a window
that is consecutive along one direction and entirely holds the winning
value returned by check_winner (both functions scan the same windows in
the same fixed order). -/
theorem claim10_winning_positions (b : Board) :
    (get_winning_positions b = [] ↔ check_winner b = 0) ∧
    (get_winning_positions b ≠ [] →
      check_winner b ≠ 0 ∧
      ((∃ r c, r < 6 ∧ c < 4 ∧
          get_winning_positions b = [(r, c), (r, c+1), (r, c+2), (r, c+3)] ∧
          HLineAt b (check_winner b) r c) ∨
       (∃ r c, c < 7 ∧ r < 3 ∧
          get_winning_positions b = [(r, c), (r+1, c), (r+2, c), (r+3, c)] ∧
          VLineAt b (check_winner b) r c) ∨
       (∃ r c, r < 3 ∧ c < 4 ∧
          get_winning_positions b = [(r, c), (r+1, c+1), (r+2, c+2), (r+3, c+3)] ∧
          D1LineAt b (check_winner b) r c) ∨
       (∃ r c, 3 ≤ r ∧ r < 6 ∧ c < 4 ∧
          get_winning_positions b = [(r, c), (r-1, c+1), (r-2, c+2), (r-3, c+3)] ∧
          D2LineAt b (check_winner b) r c))) := by
  cases hh : hScan b with
  | some v =>
    cases hhP : hScanP b with
    | none =>
      rw [hScan] at hh
      rw [hScanP] at hhP
      rw [(findSome?_if_none_align hPairs).mpr hhP] at hh
      exact absurd hh (by simp)
    | some L =>
      have hg : get_winning_positions b = L := by rw [get_winning_positions, hhP]
      have hw : check_winner b = v := by rw [check_winner, hh]
      rw [hScan] at hh
      rw [hScanP] at hhP
      obtain ⟨x, hx, hcond, hfv, hgL⟩ := findSome?_if_align hPairs hh hhP
      obtain ⟨hr, hc⟩ := mem_hPairs.mp (by simpa using hx)
      obtain ⟨hne, hline⟩ := hCond_iff.mp hcond
      constructor
      · rw [hg, hw, ← hgL]
        constructor
        · intro habs; exact absurd habs (by simp)
        · intro habs; rw [hfv] at hne; exact absurd habs hne
      · intro _
        refine ⟨by rw [hw, ← hfv]; exact hne, Or.inl ⟨x.1, x.2, hr, hc, ?_, ?_⟩⟩
        · rw [hg, ← hgL]
        · rw [hw, ← hfv]; exact hline
  | none =>
  have hhP : hScanP b = none := by
    rw [hScanP, ← findSome?_if_none_align hPairs]
    rw [hScan] at hh
    exact hh
  cases hv : vScan b with
  | some v =>
    cases hvP : vScanP b with
    | none =>
      rw [vScan] at hv
      rw [vScanP] at hvP
      rw [(findSome?_if_none_align vPairs).mpr hvP] at hv
      exact absurd hv (by simp)
    | some L =>
      have hg : get_winning_positions b = L := by rw [get_winning_positions, hhP, hvP]
      have hw : check_winner b = v := by rw [check_winner, hh, hv]
      rw [vScan] at hv
      rw [vScanP] at hvP
      obtain ⟨x, hx, hcond, hfv, hgL⟩ := findSome?_if_align vPairs hv hvP
      obtain ⟨hc, hr⟩ := mem_vPairs.mp (by simpa using hx)
      obtain ⟨hne, hline⟩ := vCond_iff.mp hcond
      constructor
      · rw [hg, hw, ← hgL]
        constructor
        · intro habs; exact absurd habs (by simp)
        · intro habs; rw [hfv] at hne; exact absurd habs hne
      · intro _
        refine ⟨by rw [hw, ← hfv]; exact hne, Or.inr (Or.inl ⟨x.2, x.1, hc, hr, ?_, ?_⟩)⟩
        · rw [hg, ← hgL]
        · rw [hw, ← hfv]; exact hline
  | none =>
  have hvP : vScanP b = none := by
    rw [vScanP, ← findSome?_if_none_align vPairs]
    rw [vScan] at hv
    exact hv
  cases h1 : d1Scan b with
  | some v =>
    cases h1P : d1ScanP b with
    | none =>
      rw [d1Scan] at h1
      rw [d1ScanP] at h1P
      rw [(findSome?_if_none_align d1Pairs).mpr h1P] at h1
      exact absurd h1 (by simp)
    | some L =>
      have hg : get_winning_positions b = L := by rw [get_winning_positions, hhP, hvP, h1P]
      have hw : check_winner b = v := by rw [check_winner, hh, hv, h1]
      rw [d1Scan] at h1
      rw [d1ScanP] at h1P
      obtain ⟨x, hx, hcond, hfv, hgL⟩ := findSome?_if_align d1Pairs h1 h1P
      obtain ⟨hr, hc⟩ := mem_d1Pairs.mp (by simpa using hx)
      obtain ⟨hne, hline⟩ := d1Cond_iff.mp hcond
      constructor
      · rw [hg, hw, ← hgL]
        constructor
        · intro habs; exact absurd habs (by simp)
        · intro habs; rw [hfv] at hne; exact absurd habs hne
      · intro _
        refine ⟨by rw [hw, ← hfv]; exact hne, Or.inr (Or.inr (Or.inl ⟨x.1, x.2, hr, hc, ?_, ?_⟩))⟩
        · rw [hg, ← hgL]
        · rw [hw, ← hfv]; exact hline
  | none =>
  have h1P : d1ScanP b = none := by
    rw [d1ScanP, ← findSome?_if_none_align d1Pairs]
    rw [d1Scan] at h1
    exact h1
  cases h2 : d2Scan b with
  | some v =>
    cases h2P : d2ScanP b with
    | none =>
      rw [d2Scan] at h2
      rw [d2ScanP] at h2P
      rw [(findSome?_if_none_align d2Pairs).mpr h2P] at h2
      exact absurd h2 (by simp)
    | some L =>
      have hg : get_winning_positions b = L := by rw [get_winning_positions, hhP, hvP, h1P, h2P]
      have hw : check_winner b = v := by rw [check_winner, hh, hv, h1, h2]
      rw [d2Scan] at h2
      rw [d2ScanP] at h2P
      obtain ⟨x, hx, hcond, hfv, hgL⟩ := findSome?_if_align d2Pairs h2 h2P
      obtain ⟨⟨hr0, hr⟩, hc⟩ := mem_d2Pairs.mp (by simpa using hx)
      obtain ⟨hne, hline⟩ := d2Cond_iff.mp hcond
      constructor
      · rw [hg, hw, ← hgL]
        constructor
        · intro habs; exact absurd habs (by simp)
        · intro habs; rw [hfv] at hne; exact absurd habs hne
      · intro _
        refine ⟨by rw [hw, ← hfv]; exact hne,
          Or.inr (Or.inr (Or.inr ⟨x.1, x.2, hr0, hr, hc, ?_, ?_⟩))⟩
        · rw [hg, ← hgL]
        · rw [hw, ← hfv]; exact hline
  | none =>
    have h2P : d2ScanP b = none := by
      rw [d2ScanP, ← findSome?_if_none_align d2Pairs]
      rw [d2Scan] at h2
      exact h2
    have hg : get_winning_positions b = [] := by
      rw [get_winning_positions, hhP, hvP, h1P, h2P]
    have hw : check_winner b = 0 := by rw [check_winner, hh, hv, h1, h2]
    constructor
    · rw [hg, hw]; simp
    · intro habs; exact absurd hg habs

/-- Claim C10, witness: the theorem evaluated on the concrete two-line
board, where the horizontal window of 2s in row 4 is reported. -/
theorem claim10_witness :
    get_winning_positions twoLinesBoard ≠ [] ∧
    check_winner twoLinesBoard ≠ 0 := by
  have h := claim10_winning_positions twoLinesBoard
  have hne : get_winning_positions twoLinesBoard ≠ [] := by decide
  exact ⟨hne, (h.2 hne).1⟩

/-! ## Claim C2: make_move raises exactly on out-of-range or full column -/

/-- Claim C2: make_move fails (raises ValueError in the source) iff the
column is out of range or the column is full; the embedding is a pure
function (the source deep-copies the board and the state before writing),
so the input state is never changed by a call. -/
theorem claim2_invalid_move (gs : GameState) (col : Int) (player : Nat) :
    (∃ e, make_move gs col player = Except.error e) ↔
      (col < 0 ∨ (COLS : Int) ≤ col ∨ cell gs.board 0 col.toNat ≠ 0) := by
  constructor
  · rintro ⟨e, he⟩
    by_contra hc
    push_neg at hc
    obtain ⟨h1, h2, h3⟩ := hc
    rw [make_move, if_neg (by push_neg; exact ⟨h1, h2, h3⟩)] at he
    cases hfind : ((List.range ROWS).reverse).find? (fun r => cell gs.board r col.toNat == 0) with
    | none =>
      rw [List.find?_eq_none] at hfind
      have h0 : (0 : Nat) ∈ (List.range ROWS).reverse := by simp [ROWS]
      have := hfind 0 h0
      simp [h3] at this
    | some row =>
      rw [hfind] at he
      simp at he
  · intro h
    exact ⟨"Invalid move", by rw [make_move, if_pos h]⟩

/-- Claim C2, witness: a move into the out-of-range column -1 fails, and
a legal move on the initial board does not. -/
theorem claim2_witness :
    ((∃ e, make_move (GameState.init "LOCAL" "EASY") (-1) 1 = Except.error e) ↔
      ((-1 : Int) < 0 ∨ (COLS : Int) ≤ (-1) ∨
        cell (GameState.init "LOCAL" "EASY").board 0 (Int.toNat (-1)) ≠ 0)) ∧
    ((∃ e, make_move (GameState.init "LOCAL" "EASY") 3 1 = Except.error e) ↔
      ((3 : Int) < 0 ∨ (COLS : Int) ≤ 3 ∨
        cell (GameState.init "LOCAL" "EASY").board 0 3 ≠ 0)) :=
  ⟨claim2_invalid_move _ (-1) 1, claim2_invalid_move _ 3 1⟩

/-! ## Claim C9: serialization round trip -/

/-- Claim C9: a document produced by the serializer survives
deserialize-then-serialize field for field (from_json overwrites every
field of a fresh default state with the ten keys of the document, and
to_json writes those same ten keys back); the universal quantifier covers
a null last_move. -/
theorem claim9_roundtrip (gs : GameState) :
    GameState.to_json (GameState.from_json (GameState.to_json gs)) = GameState.to_json gs := rfl

/-! ## Board update and counting lemmas -/

theorem getD_set_self {α : Type} (l : List α) (i : Nat) (a d : α) (h : i < l.length) :
    (l.set i a).getD i d = a := by
  rw [List.getD_eq_getElem?_getD, List.getElem?_set_self h]
  rfl

theorem getD_set_ne {α : Type} (l : List α) (i j : Nat) (a d : α) (h : i ≠ j) :
    (l.set i a).getD j d = l.getD j d := by
  rw [List.getD_eq_getElem?_getD, List.getD_eq_getElem?_getD, List.getElem?_set_ne h]

theorem cell_setCell_self {b : Board} {r c v : Nat} (hr : r < b.length)
    (hc : c < (b.getD r []).length) : cell (setCell b r c v) r c = v := by
  unfold cell setCell
  rw [getD_set_self _ _ _ _ hr, getD_set_self _ _ _ _ hc]

theorem cell_setCell_ne {b : Board} {r c r' c' v : Nat} (h : r' ≠ r ∨ c' ≠ c) :
    cell (setCell b r c v) r' c' = cell b r' c' := by
  unfold cell setCell
  rcases h with hr | hc
  · rw [getD_set_ne _ _ _ _ _ (fun he => hr he.symm)]
  · by_cases hrr : r' = r
    · subst hrr
      by_cases hrb : r' < b.length
      · rw [getD_set_self _ _ _ _ hrb, getD_set_ne _ _ _ _ _ (fun he => hc he.symm)]
      · rw [List.set_eq_of_length_le (by omega)]
    · rw [getD_set_ne _ _ _ _ _ (fun he => hrr he.symm)]

/-- Flipping one predicate value from false to true on a duplicate-free
list adds exactly one to the filtered length. -/
theorem filter_length_flip {l : List Nat} {p q : Nat → Bool} {c0 : Nat}
    (hnd : l.Nodup) (hmem : c0 ∈ l) (hp : p c0 = false) (hq : q c0 = true)
    (hother : ∀ x ∈ l, x ≠ c0 → q x = p x) :
    (l.filter q).length = (l.filter p).length + 1 := by
  induction l with
  | nil => cases hmem
  | cons a t ih =>
    rw [List.nodup_cons] at hnd
    rcases List.mem_cons.mp hmem with rfl | hmt
    · rw [List.filter_cons, List.filter_cons, hp, hq]
      have hqt : t.filter q = t.filter p := by
        apply List.filter_congr
        intro x hx
        exact hother x (List.mem_cons_of_mem _ hx) (fun h => hnd.1 (h ▸ hx))
      simp [hqt]
    · have ha : a ≠ c0 := fun h => hnd.1 (h ▸ hmt)
      rw [List.filter_cons, List.filter_cons, hother a (List.mem_cons_self a t) ha]
      have hrec := ih hnd.2 hmt (fun x hx hne => hother x (List.mem_cons_of_mem _ hx) hne)
      cases hpa : p a <;> simp [hrec]

/-- Raising one mapped value by one on a duplicate-free list adds exactly
one to the mapped sum. -/
theorem map_sum_flip {l : List Nat} {f g : Nat → Nat} {r0 : Nat}
    (hnd : l.Nodup) (hmem : r0 ∈ l) (hg : g r0 = f r0 + 1)
    (hother : ∀ x ∈ l, x ≠ r0 → g x = f x) :
    (l.map g).sum = (l.map f).sum + 1 := by
  induction l with
  | nil => cases hmem
  | cons a t ih =>
    rw [List.nodup_cons] at hnd
    rcases List.mem_cons.mp hmem with rfl | hmt
    · have hgt : t.map g = t.map f := by
        apply List.map_congr_left
        intro x hx
        exact hother x (List.mem_cons_of_mem _ hx) (fun h => hnd.1 (h ▸ hx))
      simp [hgt, hg]
      omega
    · have ha : a ≠ r0 := fun h => hnd.1 (h ▸ hmt)
      have hrec := ih hnd.2 hmt (fun x hx hne => hother x (List.mem_cons_of_mem _ hx) hne)
      simp [hother a (List.mem_cons_self a t) ha, hrec]
      omega

/-- Placing a nonzero piece on an empty in-range cell of a well-formed
board increments the piece count. -/
theorem countPieces_setCell {b : Board} {r0 c0 v : Nat} (hwf : WFBoard b)
    (hr : r0 < 6) (hc : c0 < 7) (hempty : cell b r0 c0 = 0) (hv : v ≠ 0) :
    countPieces (setCell b r0 c0 v) = countPieces b + 1 := by
  have hrb : r0 < b.length := by rw [hwf.1]; exact hr
  have hrowlen : (b.getD r0 []).length = 7 := by
    apply hwf.2
    rw [List.getD_eq_getElem?_getD, List.getElem?_eq_getElem hrb]
    exact List.getElem_mem hrb
  unfold countPieces
  apply map_sum_flip (List.nodup_range 6) (List.mem_range.mpr hr)
  · apply filter_length_flip (List.nodup_range 7) (List.mem_range.mpr hc)
    · simp [hempty]
    · rw [cell_setCell_self hrb (by rw [hrowlen]; exact hc)]
      simp [hv]
    · intro x hx hne
      rw [cell_setCell_ne (Or.inr hne)]
  · intro x hx hne
    congr 1
    apply List.filter_congr
    intro c hcm
    rw [cell_setCell_ne (Or.inl hne)]

theorem countPieces_le (b : Board) : countPieces b ≤ 42 := by
  unfold countPieces
  have hb : ∀ x ∈ (List.range 6).map
      (fun r => ((List.range 7).filter (fun c => cell b r c != 0)).length), x ≤ 7 := by
    rintro x hx
    obtain ⟨r, hr, rfl⟩ := List.mem_map.mp hx
    simpa using List.length_filter_le _ _
  have h := List.sum_le_card_nsmul _ 7 hb
  simpa using h

theorem countPieces_of_full {b : Board} (h : boardFull b) : countPieces b = 42 := by
  unfold countPieces
  have hrow : ∀ r ∈ List.range 6,
      ((List.range 7).filter (fun c => cell b r c != 0)).length = (fun _ : Nat => 7) r := by
    intro r hr
    have hall : ∀ c ∈ List.range 7, (fun c => cell b r c != 0) c := by
      intro c hc
      simp only [bne_iff_ne, ne_eq]
      exact h r (List.mem_range.mp hr) c (List.mem_range.mp hc)
    simpa using List.filter_length_eq_length.mpr hall
  rw [List.map_congr_left hrow]
  decide

theorem countPieces_lt_of_empty {b : Board} {r c : Nat} (hr : r < 6) (hc : c < 7)
    (h0 : cell b r c = 0) : countPieces b < 42 := by
  have hle : ∀ r' : Nat, ((List.range 7).filter (fun c => cell b r' c != 0)).length ≤ 7 := by
    intro r'
    simpa using List.length_filter_le (fun c => cell b r' c != 0) (List.range 7)
  have hf : ((List.range 7).filter (fun c => cell b r c != 0)).length < 7 := by
    have hlt : ((List.range 7).filter (fun c => cell b r c != 0)).length
        < (List.range 7).length := by
      rw [List.length_filter_lt_length_iff_exists]
      exact ⟨c, List.mem_range.mpr hc, by simp [h0]⟩
    simpa using hlt
  have e0 := hle 0
  have e1 := hle 1
  have e2 := hle 2
  have e3 := hle 3
  have e4 := hle 4
  have e5 := hle 5
  have hexp : List.range 6 = [0, 1, 2, 3, 4, 5] := rfl
  unfold countPieces
  rw [hexp]
  simp only [List.map_cons, List.map_nil, List.sum_cons, List.sum_nil]
  interval_cases r <;> omega

theorem full_of_countPieces {b : Board} (h : 42 ≤ countPieces b) : boardFull b := by
  by_contra hnf
  unfold boardFull at hnf
  push_neg at hnf
  obtain ⟨r, hr, c, hc, h0⟩ := hnf
  exact absurd h (by have := countPieces_lt_of_empty hr hc h0; omega)

/-- The bottom-up scan of make_move finds the lowest empty row of a column
whose top cell is empty. -/
theorem find_drop_row {b : Board} {col : Nat} (htop : cell b 0 col = 0) :
    ∃ row, ((List.range ROWS).reverse).find? (fun r => cell b r col == 0) = some row ∧
      row < 6 ∧ cell b row col = 0 ∧ ∀ r, row < r → r < 6 → cell b r col ≠ 0 := by
  have hrev : (List.range ROWS).reverse = [5, 4, 3, 2, 1, 0] := rfl
  rw [hrev]
  by_cases h5 : cell b 5 col = 0
  · exact ⟨5, List.find?_cons_of_pos _ (by simp [h5]), by omega, h5,
      fun r h1 h2 => absurd h1 (by omega)⟩
  · by_cases h4 : cell b 4 col = 0
    · refine ⟨4, ?_, by omega, h4, ?_⟩
      · rw [List.find?_cons_of_neg _ (by simp [h5])]
        exact List.find?_cons_of_pos _ (by simp [h4])
      · intro r h1 h2
        have : r = 5 := by omega
        rw [this]; exact h5
    · by_cases h3 : cell b 3 col = 0
      · refine ⟨3, ?_, by omega, h3, ?_⟩
        · rw [List.find?_cons_of_neg _ (by simp [h5]), List.find?_cons_of_neg _ (by simp [h4])]
          exact List.find?_cons_of_pos _ (by simp [h3])
        · intro r h1 h2
          rcases (by omega : r = 4 ∨ r = 5) with hr | hr <;> rw [hr] <;> assumption
      · by_cases h2 : cell b 2 col = 0
        · refine ⟨2, ?_, by omega, h2, ?_⟩
          · rw [List.find?_cons_of_neg _ (by simp [h5]), List.find?_cons_of_neg _ (by simp [h4]),
              List.find?_cons_of_neg _ (by simp [h3])]
            exact List.find?_cons_of_pos _ (by simp [h2])
          · intro r hr1 hr2
            rcases (by omega : r = 3 ∨ r = 4 ∨ r = 5) with hr | hr | hr <;> rw [hr] <;> assumption
        · by_cases h1 : cell b 1 col = 0
          · refine ⟨1, ?_, by omega, h1, ?_⟩
            · rw [List.find?_cons_of_neg _ (by simp [h5]), List.find?_cons_of_neg _ (by simp [h4]),
                List.find?_cons_of_neg _ (by simp [h3]), List.find?_cons_of_neg _ (by simp [h2])]
              exact List.find?_cons_of_pos _ (by simp [h1])
            · intro r hr1 hr2
              rcases (by omega : r = 2 ∨ r = 3 ∨ r = 4 ∨ r = 5) with hr | hr | hr | hr <;>
                rw [hr] <;> assumption
          · refine ⟨0, ?_, by omega, htop, ?_⟩
            · rw [List.find?_cons_of_neg _ (by simp [h5]), List.find?_cons_of_neg _ (by simp [h4]),
                List.find?_cons_of_neg _ (by simp [h3]), List.find?_cons_of_neg _ (by simp [h2]),
                List.find?_cons_of_neg _ (by simp [h1])]
              exact List.find?_cons_of_pos _ (by simp [htop])
            · intro r hr1 hr2
              rcases (by omega : r = 1 ∨ r = 2 ∨ r = 3 ∨ r = 4 ∨ r = 5) with hr | hr | hr | hr | hr <;>
                rw [hr] <;> assumption

/-! ## Claim C1: effect of make_move -/

/-- Claim C1 (amended): on a state whose board is a well-formed 6 x 7 grid,
whose move_count equals its piece count and which is not already finished
(game_over false, winner 0) - invariants that hold for every reachable
state - a legal move places the piece on the lowest empty row of the
column, sets last_move, increments move_count, flips current_player, and
recomputes game_over/winner from the new board: a nonzero check_winner
value is installed, a full board with no line yields winner 3 (draw), and
otherwise the game continues. -/
theorem claim1_make_move (gs : GameState) (col : Int) (player : Nat)
    (hc0 : 0 ≤ col) (hc7 : col < 7) (htop : cell gs.board 0 col.toNat = 0)
    (hp : player = 1 ∨ player = 2) (hwf : WFBoard gs.board)
    (hmc : gs.move_count = countPieces gs.board)
    (hgo : gs.game_over = false) (hw : gs.winner = 0) :
    ∃ s' row, make_move gs col player = Except.ok (s', row) ∧
      row < 6 ∧ cell gs.board row col.toNat = 0 ∧
      (∀ r, row < r → r < 6 → cell gs.board r col.toNat ≠ 0) ∧
      s'.board = setCell gs.board row col.toNat player ∧
      cell s'.board row col.toNat = player ∧
      s'.last_move = some [col, (row : Int), (player : Int)] ∧
      s'.move_count = gs.move_count + 1 ∧
      s'.current_player = (if player = 1 then 2 else 1) ∧
      (check_winner s'.board ≠ 0 → s'.game_over = true ∧ s'.winner = check_winner s'.board) ∧
      (check_winner s'.board = 0 → boardFull s'.board → s'.game_over = true ∧ s'.winner = 3) ∧
      (check_winner s'.board = 0 → ¬ boardFull s'.board →
        s'.game_over = false ∧ s'.winner = 0) := by
  obtain ⟨row, hfind, hrow6, hrowempty, habove⟩ := find_drop_row htop
  have hctn : col.toNat < 7 := by omega
  have hguard : ¬ (col < 0 ∨ (COLS : Int) ≤ col ∨ cell gs.board 0 col.toNat ≠ 0) := by
    push_neg
    refine ⟨by omega, ?_, htop⟩
    rw [show ((COLS : Nat) : Int) = 7 from rfl]
    omega
  have hrb : row < gs.board.length := by rw [hwf.1]; exact hrow6
  have hrowlen : (gs.board.getD row []).length = 7 := by
    apply hwf.2
    rw [List.getD_eq_getElem?_getD, List.getElem?_eq_getElem hrb]
    exact List.getElem_mem hrb
  have hcellnew : cell (setCell gs.board row col.toNat player) row col.toNat = player :=
    cell_setCell_self hrb (by rw [hrowlen]; exact hctn)
  have hcount : countPieces (setCell gs.board row col.toNat player)
      = countPieces gs.board + 1 :=
    countPieces_setCell hwf hrow6 hctn hrowempty (by rcases hp with h | h <;> simp [h])
  have hmm : make_move gs col player = Except.ok
      ({ gs with
          board := setCell gs.board row col.toNat player
        , last_move := some [col, (row : Int), (player : Int)]
        , move_count := gs.move_count + 1
        , current_player := if player = 1 then 2 else 1
        , game_over := if check_winner (setCell gs.board row col.toNat player) ≠ 0 then true
            else if ROWS * COLS ≤ gs.move_count + 1 then true else gs.game_over
        , winner := if check_winner (setCell gs.board row col.toNat player) ≠ 0
            then check_winner (setCell gs.board row col.toNat player)
            else if ROWS * COLS ≤ gs.move_count + 1 then 3 else gs.winner }, row) := by
    rw [make_move, if_neg hguard, hfind]
  refine ⟨_, row, hmm, hrow6, hrowempty, habove, rfl, hcellnew, rfl, rfl, rfl, ?_, ?_, ?_⟩
  · intro hcw
    constructor <;> simp [hcw]
  · intro hcw hfull
    have h42 : countPieces (setCell gs.board row col.toNat player) = 42 :=
      countPieces_of_full hfull
    have hmc42 : ROWS * COLS ≤ gs.move_count + 1 := by
      show 42 ≤ gs.move_count + 1
      omega
    constructor <;> simp [hcw, hmc42]
  · intro hcw hnfull
    have hlt : countPieces (setCell gs.board row col.toNat player) < 42 := by
      rcases Nat.lt_or_ge (countPieces (setCell gs.board row col.toNat player)) 42 with h | h
    -- either already below 42 or full, and full is excluded
      · exact h
      · exact absurd (full_of_countPieces h) hnfull
    have hmclt : ¬ ROWS * COLS ≤ gs.move_count + 1 := by
      show ¬ 42 ≤ gs.move_count + 1
      omega
    constructor <;> simp [hcw, hmclt, hgo, hw]

/-- A state whose stored move_count (41) disagrees with its empty board:
the claim quantifies over every state, so it must cover this one. -/
def skewState : GameState := { GameState.init "LOCAL" "EASY" with move_count := 41 }

/-- Claim C1, counterexample: on skewState a legal move into column 0
produces winner = 3 (draw) and game_over = true although the win detector
reports no line on the new board and the new board is far from full (its
top-left cell is still empty): the draw decision of the code follows the
stored move_count, not the board, so game_over/winner are not recomputed
from the new board as the claim states. -/
theorem claim1_counterexample :
    (make_move skewState 0 1).toOption.map
        (fun p => (p.1.winner, p.1.game_over, check_winner p.1.board, cell p.1.board 0 0)) =
      some (3, true, 0, 0) := by decide

/-- Claim C1, witness: the amended theorem applied to the initial state,
dropping player 1 into column 3. -/
theorem claim1_witness :
    (0 : Int) ≤ 3 ∧ (3 : Int) < 7 ∧ cell (GameState.init "LOCAL" "EASY").board 0 (Int.toNat 3) = 0 ∧
    (∃ s' row, make_move (GameState.init "LOCAL" "EASY") 3 1 = Except.ok (s', row) ∧
      row < 6 ∧ cell (GameState.init "LOCAL" "EASY").board row (Int.toNat 3) = 0 ∧
      (∀ r, row < r → r < 6 → cell (GameState.init "LOCAL" "EASY").board r (Int.toNat 3) ≠ 0) ∧
      s'.board = setCell (GameState.init "LOCAL" "EASY").board row (Int.toNat 3) 1 ∧
      cell s'.board row (Int.toNat 3) = 1 ∧
      s'.last_move = some [(3 : Int), (row : Int), (1 : Int)] ∧
      s'.move_count = (GameState.init "LOCAL" "EASY").move_count + 1 ∧
      s'.current_player = (if (1 : Nat) = 1 then 2 else 1) ∧
      (check_winner s'.board ≠ 0 → s'.game_over = true ∧ s'.winner = check_winner s'.board) ∧
      (check_winner s'.board = 0 → boardFull s'.board → s'.game_over = true ∧ s'.winner = 3) ∧
      (check_winner s'.board = 0 → ¬ boardFull s'.board →
        s'.game_over = false ∧ s'.winner = 0)) :=
  ⟨by decide, by decide, by decide,
    claim1_make_move (GameState.init "LOCAL" "EASY") 3 1 (by decide) (by decide) (by decide)
      (Or.inl rfl) (by constructor <;> decide) (by decide) rfl rfl⟩

/-! ## Heuristic evaluator -/

/-- score_window: score of one 4-cell window for a player. -/
def score_window (w : List Nat) (player : Nat) : Int :=
  let opp := if player = 1 then 2 else 1
  let base : Int :=
    if w.count player = 4 then 1000
    else if w.count player = 3 ∧ w.count 0 = 1 then 50
    else if w.count player = 2 ∧ w.count 0 = 2 then 10
    else 0
  base + (if w.count opp = 3 ∧ w.count 0 = 1 then -80 else 0)

/-- evaluate_board: center-column bonus plus the sum of all window scores
over every horizontal, vertical and diagonal 4-cell window. -/
def evaluate_board (b : Board) (player : Nat) : Int :=
  let center := ((List.range 6).filter (fun r => cell b r 3 == player)).length
  (center : Int) * 6
  + ((List.range 6).map (fun r => ((List.range 4).map (fun c =>
      score_window [cell b r c, cell b r (c+1), cell b r (c+2), cell b r (c+3)] player)).sum)).sum
  + ((List.range 7).map (fun c => ((List.range 3).map (fun r =>
      score_window [cell b r c, cell b (r+1) c, cell b (r+2) c, cell b (r+3) c] player)).sum)).sum
  + ((List.range 3).map (fun r => ((List.range 4).map (fun c =>
      score_window [cell b r c, cell b (r+1) (c+1), cell b (r+2) (c+2), cell b (r+3) (c+3)] player)).sum)).sum
  + (((List.range 3).map (fun i => 3 + i)).map (fun r => ((List.range 4).map (fun c =>
      score_window [cell b r c, cell b (r-1) (c+1), cell b (r-2) (c+2), cell b (r-3) (c+3)] player)).sum)).sum

/-! ## Search engine -/

/-- Comparison domain of the search: the integers extended with the two
float infinities used as alpha/beta and running-best sentinels. -/
inductive XInt where
  | negInf : XInt
  | fin : Int → XInt
  | posInf : XInt
deriving DecidableEq

/-- Strict comparison on XInt. -/
def XInt.blt : XInt → XInt → Bool
  | XInt.negInf, XInt.negInf => false
  | XInt.negInf, _ => true
  | XInt.fin _, XInt.negInf => false
  | XInt.fin a, XInt.fin b => a < b
  | XInt.fin _, XInt.posInf => true
  | XInt.posInf, _ => false

/-- Non-strict comparison on XInt. -/
def XInt.ble (a b : XInt) : Bool := ! XInt.blt b a

/-- max on XInt (the Python max). -/
def XInt.bmax (a b : XInt) : XInt := if XInt.blt a b then b else a

/-- min on XInt (the Python min). -/
def XInt.bmin (a b : XInt) : XInt := if XInt.blt b a then b else a

/-- A choice oracle standing for random.choice: some element of the list,
none when the list is empty (random.choice raises on an empty list). -/
def PickValid (pick : List Nat → Option Nat) : Prop :=
  ∀ l : List Nat, (∀ x, pick l = some x → x ∈ l) ∧ (pick l = none ↔ l = [])

/-- The deterministic head oracle, one valid instance of random.choice. -/
def headPick : List Nat → Option Nat := fun l => l.head?

theorem headPick_valid : PickValid headPick := by
  intro l
  cases l with
  | nil => exact ⟨fun x h => by simp [headPick] at h, by simp [headPick]⟩
  | cons a t =>
    refine ⟨fun x h => ?_, by simp [headPick]⟩
    simp [headPick] at h
    simp [h]

/-- The maximizing for-loop of minimax_ab: running best value, alpha
update, strict-improvement replacement, and the alpha >= beta break.
The recur argument is the one-ply-deeper recursive call with the
current alpha/beta; none models an uncaught exception. -/
def maxStep (recur : GameState → XInt → XInt → Option (XInt × Option Nat))
    (s : GameState) (mover : Nat) :
    List Nat → XInt → XInt → Nat → XInt → Option (XInt × Nat)
  | [], value, _, best, _ => some (value, best)
  | col :: rest, value, alpha, best, beta =>
    match (make_move s (Int.ofNat col) mover).toOption with
    | none => none
    | some (child, _) =>
      match recur child alpha beta with
      | none => none
      | some (score, _) =>
        let value2 := if XInt.blt value score then score else value
        let best2 := if XInt.blt value score then col else best
        let alpha2 := XInt.bmax alpha value2
        if XInt.ble beta alpha2 then some (value2, best2)
        else maxStep recur s mover rest value2 alpha2 best2 beta

/-- The minimizing for-loop of minimax_ab: beta update and the mirrored
strict-improvement rule. -/
def minStep (recur : GameState → XInt → XInt → Option (XInt × Option Nat))
    (s : GameState) (mover : Nat) :
    List Nat → XInt → XInt → Nat → XInt → Option (XInt × Nat)
  | [], value, _, best, _ => some (value, best)
  | col :: rest, value, alpha, best, beta =>
    match (make_move s (Int.ofNat col) mover).toOption with
    | none => none
    | some (child, _) =>
      match recur child alpha beta with
      | none => none
      | some (score, _) =>
        let value2 := if XInt.blt score value then score else value
        let best2 := if XInt.blt score value then col else best
        let beta2 := XInt.bmin beta value2
        if XInt.ble beta2 alpha then some (value2, best2)
        else minStep recur s mover rest value2 alpha best2 beta2

/-- minimax_ab with alpha-beta pruning.  Terminal cases return the win /
draw / loss sentinels at a finished game and the heuristic evaluation at
depth 0; otherwise the maximizing or minimizing loop runs over the legal
columns with the initial best column drawn from the oracle
(random.choice(legal)); none models the IndexError that random.choice
raises on an empty list. -/
def minimax_ab (pick : List Nat → Option Nat) (ai : Nat) :
    Nat → GameState → XInt → XInt → Bool → Option (XInt × Option Nat)
  | 0, s, _, _, _ =>
    if s.game_over then
      some (XInt.fin (if s.winner = ai then 10000000 else if s.winner = 3 then 0 else -10000000),
        none)
    else some (XInt.fin (evaluate_board s.board ai), none)
  | d + 1, s, alpha, beta, maxi =>
    if s.game_over then
      some (XInt.fin (if s.winner = ai then 10000000 else if s.winner = 3 then 0 else -10000000),
        none)
    else
      let legal := valid_moves s
      if maxi then
        match pick legal with
        | none => none
        | some b0 =>
          match maxStep (fun c a b => minimax_ab pick ai d c a b false) s ai
              legal XInt.negInf alpha b0 beta with
          | none => none
          | some (v, b) => some (v, some b)
      else
        let opp := if ai = 2 then 1 else 2
        match pick legal with
        | none => none
        | some b0 =>
          match minStep (fun c a b => minimax_ab pick ai d c a b true) s opp
              legal XInt.posInf alpha b0 beta with
          | none => none
          | some (v, b) => some (v, some b)

/-- ai_choose: difficulty dispatch.  The outer Option models an uncaught
exception; the inner Option is the None return value of the source. -/
def ai_choose (pick : List Nat → Option Nat) (gs : GameState) : Option (Option Nat) :=
  let lvl := gs.ai_level.toUpper
  let legal := valid_moves gs
  if legal = [] then some none
  else if lvl = "EASY" then
    match pick legal with
    | none => none
    | some c => some (some c)
  else if lvl = "MED" ∨ lvl = "MEDIUM" then
    match minimax_ab pick 2 4 gs XInt.negInf XInt.posInf true with
    | none => none
    | some (_, some c) => some (some c)
    | some (_, none) =>
      match pick legal with
      | none => none
      | some c => some (some c)
  else if lvl = "HARD" then
    match minimax_ab pick 2 5 gs XInt.negInf XInt.posInf true with
    | none => none
    | some (_, some c) => some (some c)
    | some (_, none) =>
      match pick legal with
      | none => none
      | some c => some (some c)
  else
    match pick legal with
    | none => none
    | some c => some (some c)

/-! ## Claim C4: terminal sentinels dominate the heuristic -/

theorem score_window_le (w : List Nat) (p : Nat) : score_window w p ≤ 1000 := by
  simp only [score_window]
  split_ifs <;> norm_num

theorem map_sum_le {α : Type} (l : List α) (f : α → Int) (k : Int)
    (h : ∀ x ∈ l, f x ≤ k) : (l.map f).sum ≤ (l.length : Int) * k := by
  induction l with
  | nil => simp
  | cons a t ih =>
    simp only [List.map_cons, List.sum_cons, List.length_cons]
    have h1 := h a (List.mem_cons_self a t)
    have h2 := ih (fun x hx => h x (List.mem_cons_of_mem _ hx))
    have hring : ((t.length + 1 : Nat) : Int) * k = (t.length : Int) * k + k := by
      push_cast
      ring
    rw [hring]
    linarith

theorem evaluate_board_le (b : Board) (p : Nat) : evaluate_board b p ≤ 69036 := by
  have hcenter : (((List.range 6).filter (fun r => cell b r 3 == p)).length : Int) * 6 ≤ 36 := by
    have hlen : ((List.range 6).filter (fun r => cell b r 3 == p)).length ≤ 6 := by
      simpa using List.length_filter_le (fun r => cell b r 3 == p) (List.range 6)
    have : (((List.range 6).filter (fun r => cell b r 3 == p)).length : Int) ≤ 6 := by
      exact_mod_cast hlen
    linarith
  have hh : ((List.range 6).map (fun r => ((List.range 4).map (fun c =>
      score_window [cell b r c, cell b r (c+1), cell b r (c+2), cell b r (c+3)] p)).sum)).sum
      ≤ 24000 := by
    have houter := map_sum_le (List.range 6) _ 4000 (fun r _ => by
      have hinner := map_sum_le (List.range 4) (fun c =>
        score_window [cell b r c, cell b r (c+1), cell b r (c+2), cell b r (c+3)] p) 1000
        (fun c _ => score_window_le _ _)
      simpa using hinner)
    simpa using houter
  have hv : ((List.range 7).map (fun c => ((List.range 3).map (fun r =>
      score_window [cell b r c, cell b (r+1) c, cell b (r+2) c, cell b (r+3) c] p)).sum)).sum
      ≤ 21000 := by
    have houter := map_sum_le (List.range 7) _ 3000 (fun c _ => by
      have hinner := map_sum_le (List.range 3) (fun r =>
        score_window [cell b r c, cell b (r+1) c, cell b (r+2) c, cell b (r+3) c] p) 1000
        (fun r _ => score_window_le _ _)
      simpa using hinner)
    simpa using houter
  have hd1 : ((List.range 3).map (fun r => ((List.range 4).map (fun c =>
      score_window [cell b r c, cell b (r+1) (c+1), cell b (r+2) (c+2), cell b (r+3) (c+3)] p)).sum)).sum
      ≤ 12000 := by
    have houter := map_sum_le (List.range 3) _ 4000 (fun r _ => by
      have hinner := map_sum_le (List.range 4) (fun c =>
        score_window [cell b r c, cell b (r+1) (c+1), cell b (r+2) (c+2), cell b (r+3) (c+3)] p) 1000
        (fun c _ => score_window_le _ _)
      simpa using hinner)
    simpa using houter
  have hd2 : (((List.range 3).map (fun i => 3 + i)).map (fun r => ((List.range 4).map (fun c =>
      score_window [cell b r c, cell b (r-1) (c+1), cell b (r-2) (c+2), cell b (r-3) (c+3)] p)).sum)).sum
      ≤ 12000 := by
    have houter := map_sum_le ((List.range 3).map (fun i => 3 + i)) _ 4000 (fun r _ => by
      have hinner := map_sum_le (List.range 4) (fun c =>
        score_window [cell b r c, cell b (r-1) (c+1), cell b (r-2) (c+2), cell b (r-3) (c+3)] p) 1000
        (fun c _ => score_window_le _ _)
      simpa using hinner)
    simpa using houter
  simp only [evaluate_board]
  linarith

/-- minimax_ab at a finished game returns the sentinel at every depth. -/
theorem minimax_terminal (pick : List Nat → Option Nat) (ai depth : Nat) (s : GameState)
    (alpha beta : XInt) (maxi : Bool) (h : s.game_over = true) :
    minimax_ab pick ai depth s alpha beta maxi =
      some (XInt.fin (if s.winner = ai then 10000000
        else if s.winner = 3 then 0 else -10000000), none) := by
  cases depth with
  | zero => simp [minimax_ab, h]
  | succ d => simp [minimax_ab, h]

/-- Claim C4: at a game-over state minimax_ab returns +10000000 when the
winner is the adversary player, 0 on a draw and -10000000 otherwise, and
that sentinel magnitude strictly dominates the largest possible value of
evaluate_board on any board (center bonus at most 36 plus 69 windows of
at most 1000 each, hence at most 69036). -/
theorem claim4_terminal_sentinel (pick : List Nat → Option Nat) (ai depth : Nat)
    (s : GameState) (alpha beta : XInt) (maxi : Bool) (h : s.game_over = true) :
    minimax_ab pick ai depth s alpha beta maxi
      = some (XInt.fin (if s.winner = ai then 10000000
          else if s.winner = 3 then 0 else -10000000), none) ∧
    (∀ b p, evaluate_board b p ≤ 69036) ∧ (69036 : Int) < 10000000 :=
  ⟨minimax_terminal pick ai depth s alpha beta maxi h,
   fun b p => evaluate_board_le b p, by norm_num⟩

/-- Claim C4, witness: the theorem applied to a finished game won by
player 2 with the adversary being player 2. -/
theorem claim4_witness :
    ({ GameState.init "AI" "MED" with game_over := true, winner := 2 } : GameState).game_over
      = true ∧
    (minimax_ab headPick 2 3 { GameState.init "AI" "MED" with game_over := true, winner := 2 }
        XInt.negInf XInt.posInf true
      = some (XInt.fin (if (2 : Nat) = 2 then 10000000 else if (2 : Nat) = 3 then 0
          else -10000000), none) ∧
    (∀ b p, evaluate_board b p ≤ 69036) ∧ (69036 : Int) < 10000000) :=
  ⟨rfl, claim4_terminal_sentinel headPick 2 3 _ XInt.negInf XInt.posInf true rfl⟩

/-! ## XInt order facts -/

theorem XInt.blt_irrefl (a : XInt) : XInt.blt a a = false := by
  cases a <;> simp [XInt.blt]

theorem XInt.ble_refl (a : XInt) : XInt.ble a a = true := by
  simp [XInt.ble, XInt.blt_irrefl]

theorem XInt.blt_negInf_fin (z : Int) : XInt.blt XInt.negInf (XInt.fin z) = true := rfl

theorem XInt.blt_fin_posInf (z : Int) : XInt.blt (XInt.fin z) XInt.posInf = true := rfl

theorem XInt.ble_of_blt {a b : XInt} (h : XInt.blt a b = true) : XInt.ble a b = true := by
  cases a <;> cases b <;> simp_all [XInt.blt, XInt.ble] <;> omega

theorem XInt.ble_trans {a b c : XInt} (h1 : XInt.ble a b = true) (h2 : XInt.ble b c = true) :
    XInt.ble a c = true := by
  cases a <;> cases b <;> cases c <;> simp_all [XInt.blt, XInt.ble] <;> omega

theorem XInt.blt_ble_trans {a b c : XInt} (h1 : XInt.blt a b = true) (h2 : XInt.ble b c = true) :
    XInt.ble a c = true := XInt.ble_trans (XInt.ble_of_blt h1) h2

theorem XInt.ble_bmax_left (a b : XInt) : XInt.ble a (XInt.bmax a b) = true := by
  unfold XInt.bmax
  by_cases h : XInt.blt a b = true
  · rw [if_pos h]; exact XInt.ble_of_blt h
  · rw [if_neg h]; exact XInt.ble_refl a

/-! ## Reachable-state invariants -/

/-- Gravity: below every occupied cell of the grid lies an occupied cell. -/
def GravityOk (b : Board) : Prop :=
  ∀ c, c < 7 → ∀ r, r < 5 → cell b r c ≠ 0 → cell b (r+1) c ≠ 0

/-- The invariants of every reachable state: well-formed 6 x 7 board,
gravity-packed columns, move_count equal to the piece count, and an
unfinished game never has a full board.  They hold for the initial state
and are preserved by make_move. -/
def GoodState (s : GameState) : Prop :=
  WFBoard s.board ∧ GravityOk s.board ∧ s.move_count = countPieces s.board ∧
  (s.game_over = false → countPieces s.board < 42)

theorem cell_empty_board (r c : Nat) :
    cell (List.replicate 6 (List.replicate 7 0)) r c = 0 := by
  simp only [cell, List.getD_eq_getElem?_getD, List.getElem?_replicate]
  split_ifs with h
  · simp only [Option.getD_some]
    rcases Nat.lt_or_ge c 7 with h2 | h2
    · interval_cases c <;> rfl
    · rw [List.getElem?_eq_none (by simp; omega)]
      rfl
  · rfl

theorem GoodState_init (mode lvl : String) : GoodState (GameState.init mode lvl) := by
  refine ⟨⟨rfl, ?_⟩, ?_, ?_, fun _ => ?_⟩
  · intro row hrow
    rw [List.eq_of_mem_replicate hrow]
    rfl
  · intro c _ r _ h
    exact absurd (cell_empty_board r c) h
  · show (0 : Nat) = countPieces (List.replicate 6 (List.replicate 7 0))
    decide
  · show countPieces (List.replicate 6 (List.replicate 7 0)) < 42
    decide

theorem mem_valid_moves {s : GameState} {c : Nat} :
    c ∈ valid_moves s ↔ c < 7 ∧ cell s.board 0 c = 0 := by
  simp only [valid_moves, List.mem_filter, List.mem_range, beq_iff_eq, COLS]

/-- On a gravity-packed board that is not full, some column is open. -/
theorem valid_moves_nonempty {s : GameState} (hgrav : GravityOk s.board)
    (hlt : countPieces s.board < 42) : valid_moves s ≠ [] := by
  intro hnil
  have htop : ∀ c, c < 7 → cell s.board 0 c ≠ 0 := by
    intro c hc h0
    have : c ∈ valid_moves s := mem_valid_moves.mpr ⟨hc, h0⟩
    rw [hnil] at this
    cases this
  have hfull : boardFull s.board := by
    intro r hr c hc
    induction r with
    | zero => exact htop c hc
    | succ n ihn =>
      exact hgrav c hc n (by omega) (ihn (by omega))
  rw [countPieces_of_full hfull] at hlt
  omega

theorem WF_setCell {b : Board} {r c v : Nat} (hwf : WFBoard b) : WFBoard (setCell b r c v) := by
  rcases Nat.lt_or_ge r b.length with hrb | hrb
  · constructor
    · rw [setCell, List.length_set]
      exact hwf.1
    · intro row hmem
      unfold setCell at hmem
      rcases List.mem_or_eq_of_mem_set hmem with hin | heq
      · exact hwf.2 row hin
      · rw [heq, List.length_set]
        apply hwf.2
        rw [List.getD_eq_getElem?_getD, List.getElem?_eq_getElem hrb]
        exact List.getElem_mem hrb
  · rw [setCell, List.set_eq_of_length_le (by omega)]
    exact hwf

/-- Shape of a successful make_move on an open column (Nat column). -/
theorem make_move_nat_eq {s : GameState} {col : Nat} (p : Nat) (hc : col < 7)
    (htop : cell s.board 0 col = 0) :
    ∃ row, row < 6 ∧ cell s.board row col = 0 ∧
      (∀ r, row < r → r < 6 → cell s.board r col ≠ 0) ∧
      make_move s (Int.ofNat col) p = Except.ok
        ({ s with
            board := setCell s.board row col p
          , last_move := some [(col : Int), (row : Int), (p : Int)]
          , move_count := s.move_count + 1
          , current_player := if p = 1 then 2 else 1
          , game_over := if check_winner (setCell s.board row col p) ≠ 0 then true
              else if ROWS * COLS ≤ s.move_count + 1 then true else s.game_over
          , winner := if check_winner (setCell s.board row col p) ≠ 0
              then check_winner (setCell s.board row col p)
              else if ROWS * COLS ≤ s.move_count + 1 then 3 else s.winner }, row) := by
  have htn : (Int.ofNat col).toNat = col := rfl
  obtain ⟨row, hfind, h6, he, ha⟩ := find_drop_row htop
  have hguard : ¬ (Int.ofNat col < 0 ∨ (COLS : Int) ≤ Int.ofNat col ∨
      cell s.board 0 (Int.ofNat col).toNat ≠ 0) := by
    push_neg
    refine ⟨not_lt.mp (fun h => by cases h), ?_, by rw [htn]; exact htop⟩
    show Int.ofNat col < Int.ofNat 7
    exact Int.ofNat_lt.mpr hc
  refine ⟨row, h6, he, ha, ?_⟩
  rw [make_move, if_neg hguard]
  rw [show ((List.range ROWS).reverse).find?
      (fun r => cell s.board r (Int.ofNat col).toNat == 0) =
    ((List.range ROWS).reverse).find? (fun r => cell s.board r col == 0) from rfl, hfind]
  rfl

/-- make_move preserves the reachable-state invariants. -/
theorem GoodState_make_move {s : GameState} {col p : Nat} (hg : GoodState s)
    (hcol : col ∈ valid_moves s) (hp : p = 1 ∨ p = 2) {s2 : GameState} {row0 : Nat}
    (hmk : make_move s (Int.ofNat col) p = Except.ok (s2, row0)) : GoodState s2 := by
  obtain ⟨hwf, hgrav, hmc, hterm⟩ := hg
  obtain ⟨hc7, htop⟩ := mem_valid_moves.mp hcol
  obtain ⟨row2, h6, he, ha, heq⟩ := make_move_nat_eq p hc7 htop
  rw [heq] at hmk
  injection hmk with hmk1
  injection hmk1 with hs hr
  subst hs
  subst hr
  have hpne : p ≠ 0 := by rcases hp with h | h <;> simp [h]
  have hcount : countPieces (setCell s.board row2 col p) = countPieces s.board + 1 :=
    countPieces_setCell hwf h6 hc7 he hpne
  have hrb : row2 < s.board.length := by rw [hwf.1]; exact h6
  have hrowlen : (s.board.getD row2 []).length = 7 := by
    apply hwf.2
    rw [List.getD_eq_getElem?_getD, List.getElem?_eq_getElem hrb]
    exact List.getElem_mem hrb
  have hcellnew : cell (setCell s.board row2 col p) row2 col = p :=
    cell_setCell_self hrb (by rw [hrowlen]; exact hc7)
  refine ⟨WF_setCell hwf, ?_, ?_, ?_⟩
  · -- gravity is preserved: the new piece sits on the lowest empty row2
    intro c2 hc2 r hr hcell
    by_cases hceq : c2 = col
    · subst hceq
      by_cases hre : r + 1 = row2
      · rw [hre, hcellnew]
        exact hpne
      · rw [cell_setCell_ne (Or.inl hre)]
        by_cases hre2 : r = row2
        · exact ha (r+1) (by omega) (by omega)
        · rw [cell_setCell_ne (Or.inl hre2)] at hcell
          exact hgrav c2 hc2 r hr hcell
    · rw [cell_setCell_ne (Or.inr hceq)] at hcell
      rw [cell_setCell_ne (Or.inr hceq)]
      exact hgrav c2 hc2 r hr hcell
  · -- move_count tracks the piece count
    show s.move_count + 1 = countPieces (setCell s.board row2 col p)
    rw [hcount, hmc]
  · -- an unfinished game is never full
    intro hgo2
    rw [hcount, ← hmc]
    by_cases hcw : check_winner (setCell s.board row2 col p) ≠ 0
    · exfalso
      have : (if check_winner (setCell s.board row2 col p) ≠ 0 then true
          else if ROWS * COLS ≤ s.move_count + 1 then true else s.game_over) = false := hgo2
      rw [if_pos hcw] at this
      cases this
    · by_cases h42 : ROWS * COLS ≤ s.move_count + 1
      · exfalso
        have : (if check_winner (setCell s.board row2 col p) ≠ 0 then true
            else if ROWS * COLS ≤ s.move_count + 1 then true else s.game_over) = false := hgo2
        rw [if_neg hcw, if_pos h42] at this
        cases this
      · have : ¬ (42 ≤ s.move_count + 1) := h42
        omega

/-- Shape of the maximizing loop: it succeeds when every listed column is
legal and every child call succeeds with a finite value; the returned best
column is the initial one or a listed one; finiteness of the running value
is preserved and is established by the first iteration when the loop
starts from negative infinity. -/
theorem maxStep_shape {recur : GameState → XInt → XInt → Option (XInt × Option Nat)}
    {s : GameState} {mover : Nat}
    (hbody : ∀ col, col ∈ valid_moves s → ∀ a b,
      ∃ child row, (make_move s (Int.ofNat col) mover).toOption = some (child, row) ∧
        ∃ v c, recur child a b = some (v, c) ∧ ∃ z, v = XInt.fin z) :
    ∀ cols value alpha best beta, (∀ c ∈ cols, c ∈ valid_moves s) →
      ∃ v bb, maxStep recur s mover cols value alpha best beta = some (v, bb) ∧
        (bb = best ∨ bb ∈ cols) ∧
        ((∃ z, value = XInt.fin z) → ∃ z, v = XInt.fin z) ∧
        (value = XInt.negInf → cols ≠ [] → ∃ z, v = XInt.fin z) := by
  intro cols
  induction cols with
  | nil =>
    intro value alpha best beta _
    exact ⟨value, best, rfl, Or.inl rfl, fun h => h, fun _ hne => absurd rfl hne⟩
  | cons col rest ih =>
    intro value alpha best beta hsub
    have hcolv := hsub col (List.mem_cons_self col rest)
    obtain ⟨child, row, hmkopt, v0, c0, hrec0, z0, hz0⟩ := hbody col hcolv alpha beta
    have hred : maxStep recur s mover (col :: rest) value alpha best beta =
        (let value2 := if XInt.blt value v0 then v0 else value
         let best2 := if XInt.blt value v0 then col else best
         let alpha2 := XInt.bmax alpha value2
         if XInt.ble beta alpha2 then some (value2, best2)
         else maxStep recur s mover rest value2 alpha2 best2 beta) := by
      simp only [maxStep, hmkopt, hrec0]
    by_cases hlt : XInt.blt value v0 = true
    · simp only [hred, if_pos hlt]
      by_cases hprune : XInt.ble beta (XInt.bmax alpha v0) = true
      · rw [if_pos hprune]
        exact ⟨v0, col, rfl, Or.inr (List.mem_cons_self col rest),
          fun _ => ⟨z0, hz0⟩, fun _ _ => ⟨z0, hz0⟩⟩
      · rw [if_neg hprune]
        obtain ⟨v, bb, heq, hbb, hfin1, _⟩ :=
          ih v0 (XInt.bmax alpha v0) col beta (fun c hc => hsub c (List.mem_cons_of_mem _ hc))
        refine ⟨v, bb, heq, ?_, fun _ => hfin1 ⟨z0, hz0⟩, fun _ _ => hfin1 ⟨z0, hz0⟩⟩
        rcases hbb with h | h
        · exact Or.inr (h ▸ List.mem_cons_self col rest)
        · exact Or.inr (List.mem_cons_of_mem _ h)
    · have hvne : value ≠ XInt.negInf := by
        intro hv
        rw [hv, hz0] at hlt
        exact hlt rfl
      simp only [hred, if_neg hlt]
      by_cases hprune : XInt.ble beta (XInt.bmax alpha value) = true
      · rw [if_pos hprune]
        exact ⟨value, best, rfl, Or.inl rfl, fun h => h, fun hv => absurd hv hvne⟩
      · rw [if_neg hprune]
        obtain ⟨v, bb, heq, hbb, hfin1, _⟩ :=
          ih value (XInt.bmax alpha value) best beta
            (fun c hc => hsub c (List.mem_cons_of_mem _ hc))
        refine ⟨v, bb, heq, ?_, hfin1, fun hv => absurd hv hvne⟩
        rcases hbb with h | h
        · exact Or.inl h
        · exact Or.inr (List.mem_cons_of_mem _ h)

/-- Shape of the minimizing loop, mirroring maxStep_shape. -/
theorem minStep_shape {recur : GameState → XInt → XInt → Option (XInt × Option Nat)}
    {s : GameState} {mover : Nat}
    (hbody : ∀ col, col ∈ valid_moves s → ∀ a b,
      ∃ child row, (make_move s (Int.ofNat col) mover).toOption = some (child, row) ∧
        ∃ v c, recur child a b = some (v, c) ∧ ∃ z, v = XInt.fin z) :
    ∀ cols value alpha best beta, (∀ c ∈ cols, c ∈ valid_moves s) →
      ∃ v bb, minStep recur s mover cols value alpha best beta = some (v, bb) ∧
        (bb = best ∨ bb ∈ cols) ∧
        ((∃ z, value = XInt.fin z) → ∃ z, v = XInt.fin z) ∧
        (value = XInt.posInf → cols ≠ [] → ∃ z, v = XInt.fin z) := by
  intro cols
  induction cols with
  | nil =>
    intro value alpha best beta _
    exact ⟨value, best, rfl, Or.inl rfl, fun h => h, fun _ hne => absurd rfl hne⟩
  | cons col rest ih =>
    intro value alpha best beta hsub
    have hcolv := hsub col (List.mem_cons_self col rest)
    obtain ⟨child, row, hmkopt, v0, c0, hrec0, z0, hz0⟩ := hbody col hcolv alpha beta
    have hred : minStep recur s mover (col :: rest) value alpha best beta =
        (let value2 := if XInt.blt v0 value then v0 else value
         let best2 := if XInt.blt v0 value then col else best
         let beta2 := XInt.bmin beta value2
         if XInt.ble beta2 alpha then some (value2, best2)
         else minStep recur s mover rest value2 alpha best2 beta2) := by
      simp only [minStep, hmkopt, hrec0]
    by_cases hlt : XInt.blt v0 value = true
    · simp only [hred, if_pos hlt]
      by_cases hprune : XInt.ble (XInt.bmin beta v0) alpha = true
      · rw [if_pos hprune]
        exact ⟨v0, col, rfl, Or.inr (List.mem_cons_self col rest),
          fun _ => ⟨z0, hz0⟩, fun _ _ => ⟨z0, hz0⟩⟩
      · rw [if_neg hprune]
        obtain ⟨v, bb, heq, hbb, hfin1, _⟩ :=
          ih v0 alpha col (XInt.bmin beta v0) (fun c hc => hsub c (List.mem_cons_of_mem _ hc))
        refine ⟨v, bb, heq, ?_, fun _ => hfin1 ⟨z0, hz0⟩, fun _ _ => hfin1 ⟨z0, hz0⟩⟩
        rcases hbb with h | h
        · exact Or.inr (h ▸ List.mem_cons_self col rest)
        · exact Or.inr (List.mem_cons_of_mem _ h)
    · have hvne : value ≠ XInt.posInf := by
        intro hv
        rw [hv, hz0] at hlt
        exact hlt rfl
      simp only [hred, if_neg hlt]
      by_cases hprune : XInt.ble (XInt.bmin beta value) alpha = true
      · rw [if_pos hprune]
        exact ⟨value, best, rfl, Or.inl rfl, fun h => h, fun hv => absurd hv hvne⟩
      · rw [if_neg hprune]
        obtain ⟨v, bb, heq, hbb, hfin1, _⟩ :=
          ih value alpha best (XInt.bmin beta value)
            (fun c hc => hsub c (List.mem_cons_of_mem _ hc))
        refine ⟨v, bb, heq, ?_, hfin1, fun hv => absurd hv hvne⟩
        rcases hbb with h | h
        · exact Or.inl h
        · exact Or.inr (List.mem_cons_of_mem _ h)

/-- Totality, finiteness and legality of minimax_ab on invariant states:
the search always succeeds, its value is a finite integer, and any
returned column is legal. -/
theorem minimax_total {pick : List Nat → Option Nat} (hpv : PickValid pick)
    {ai : Nat} (hai : ai = 1 ∨ ai = 2) :
    ∀ d s alpha beta maxi, GoodState s →
      ∃ v c, minimax_ab pick ai d s alpha beta maxi = some (v, c) ∧
        (∃ z, v = XInt.fin z) ∧ (∀ cc, c = some cc → cc ∈ valid_moves s) ∧
        (s.game_over = false → ∀ d2, d = d2 + 1 → ∃ cc, c = some cc) := by
  intro d
  induction d with
  | zero =>
    intro s alpha beta maxi _
    by_cases hgo : s.game_over = true
    · exact ⟨XInt.fin (if s.winner = ai then 10000000 else if s.winner = 3 then 0
        else -10000000), none, by simp [minimax_ab, hgo], ⟨_, rfl⟩, by simp,
        fun _ d2 hd => absurd hd (by omega)⟩
    · exact ⟨XInt.fin (evaluate_board s.board ai), none, by simp [minimax_ab, hgo],
        ⟨_, rfl⟩, by simp, fun _ d2 hd => absurd hd (by omega)⟩
  | succ d ih =>
    intro s alpha beta maxi hg
    by_cases hgo : s.game_over = true
    · exact ⟨_, none, minimax_terminal pick ai (d+1) s alpha beta maxi hgo, ⟨_, rfl⟩, by simp,
        fun hgof _ _ => absurd (hgof ▸ hgo) Bool.false_ne_true⟩
    · have hgof : s.game_over = false := by
        revert hgo
        cases s.game_over <;> simp
      have hne : valid_moves s ≠ [] := valid_moves_nonempty hg.2.1 (hg.2.2.2 hgof)
      cases hpick : pick (valid_moves s) with
      | none => exact absurd ((hpv (valid_moves s)).2.mp hpick) hne
      | some b0 =>
        have hb0 : b0 ∈ valid_moves s := (hpv (valid_moves s)).1 b0 hpick
        cases hmaxi : maxi with
        | true =>
          have hbody : ∀ col, col ∈ valid_moves s → ∀ a b,
              ∃ child row, (make_move s (Int.ofNat col) ai).toOption = some (child, row) ∧
                ∃ v c, (fun c a b => minimax_ab pick ai d c a b false) child a b
                  = some (v, c) ∧ ∃ z, v = XInt.fin z := by
            intro col hcol a b
            obtain ⟨hc7, htop⟩ := mem_valid_moves.mp hcol
            obtain ⟨row, _, _, _, heq⟩ := make_move_nat_eq ai hc7 htop
            refine ⟨_, row, by rw [heq]; rfl, ?_⟩
            have hgchild := GoodState_make_move hg hcol hai heq
            obtain ⟨v, c, hrec, hfin, _⟩ := ih _ a b false hgchild
            exact ⟨v, c, hrec, hfin⟩
          obtain ⟨v, bb, hloop, hbb, _, hstart⟩ :=
            maxStep_shape hbody (valid_moves s) XInt.negInf alpha b0 beta (fun c hc => hc)
          refine ⟨v, some bb, ?_, hstart rfl hne, ?_, fun _ _ _ => ⟨bb, rfl⟩⟩
          · show minimax_ab pick ai (d+1) s alpha beta true = some (v, some bb)
            simp only [minimax_ab, hgof, Bool.false_eq_true, if_false, eq_self_iff_true,
              if_true, hpick, hloop]
          · intro cc hcc
            rw [Option.some_inj.mp hcc.symm]
            rcases hbb with h | h
            · exact h ▸ hb0
            · exact h
        | false =>
          have hopp : (if ai = 2 then 1 else 2) = 1 ∨ (if ai = 2 then 1 else 2) = 2 := by
            by_cases h : ai = 2 <;> simp [h]
          have hbody : ∀ col, col ∈ valid_moves s → ∀ a b,
              ∃ child row, (make_move s (Int.ofNat col) (if ai = 2 then 1 else 2)).toOption
                  = some (child, row) ∧
                ∃ v c, (fun c a b => minimax_ab pick ai d c a b true) child a b
                  = some (v, c) ∧ ∃ z, v = XInt.fin z := by
            intro col hcol a b
            obtain ⟨hc7, htop⟩ := mem_valid_moves.mp hcol
            obtain ⟨row, _, _, _, heq⟩ := make_move_nat_eq (if ai = 2 then 1 else 2) hc7 htop
            refine ⟨_, row, by rw [heq]; rfl, ?_⟩
            have hgchild := GoodState_make_move hg hcol hopp heq
            obtain ⟨v, c, hrec, hfin, _⟩ := ih _ a b true hgchild
            exact ⟨v, c, hrec, hfin⟩
          obtain ⟨v, bb, hloop, hbb, _, hstart⟩ :=
            minStep_shape hbody (valid_moves s) XInt.posInf alpha b0 beta (fun c hc => hc)
          refine ⟨v, some bb, ?_, hstart rfl hne, ?_, fun _ _ _ => ⟨bb, rfl⟩⟩
          · show minimax_ab pick ai (d+1) s alpha beta false = some (v, some bb)
            simp only [minimax_ab, hgof, Bool.false_eq_true, if_false, eq_self_iff_true,
              if_true, hpick, hloop]
          · intro cc hcc
            rw [Option.some_inj.mp hcc.symm]
            rcases hbb with h | h
            · exact h ▸ hb0
            · exact h

/-- ai_choose returns None exactly on a full board, and otherwise a legal
column at every difficulty level. -/
theorem ai_choose_legal {pick : List Nat → Option Nat} (hpv : PickValid pick)
    (s : GameState) (hg : GoodState s) :
    (valid_moves s = [] → ai_choose pick s = some none) ∧
    (valid_moves s ≠ [] → ∃ c, ai_choose pick s = some (some c) ∧ c ∈ valid_moves s) := by
  constructor
  · intro hnil
    simp [ai_choose, hnil]
  · intro hne
    cases hpick : pick (valid_moves s) with
    | none => exact absurd ((hpv (valid_moves s)).2.mp hpick) hne
    | some c0 =>
    have hc0 : c0 ∈ valid_moves s := (hpv (valid_moves s)).1 c0 hpick
    by_cases h1 : s.ai_level.toUpper = "EASY"
    · exact ⟨c0, by simp [ai_choose, hne, h1, hpick], hc0⟩
    · by_cases h2 : s.ai_level.toUpper = "MED" ∨ s.ai_level.toUpper = "MEDIUM"
      · obtain ⟨v, c, heq, _, hmem, _⟩ :=
          minimax_total hpv (Or.inr rfl) 4 s XInt.negInf XInt.posInf true hg
        cases hc : c with
        | none =>
          refine ⟨c0, ?_, hc0⟩
          rw [hc] at heq
          simp [ai_choose, hne, h1, h2, heq, hpick]
        | some cc =>
          refine ⟨cc, ?_, hmem cc hc⟩
          rw [hc] at heq
          simp [ai_choose, hne, h1, h2, heq]
      · by_cases h3 : s.ai_level.toUpper = "HARD"
        · obtain ⟨v, c, heq, _, hmem, _⟩ :=
            minimax_total hpv (Or.inr rfl) 5 s XInt.negInf XInt.posInf true hg
          cases hc : c with
          | none =>
            refine ⟨c0, ?_, hc0⟩
            rw [hc] at heq
            simp [ai_choose, hne, h1, h2, h3, heq, hpick]
          | some cc =>
            refine ⟨cc, ?_, hmem cc hc⟩
            rw [hc] at heq
            simp [ai_choose, hne, h1, h2, h3, heq]
        · exact ⟨c0, by simp [ai_choose, hne, h1, h2, h3, hpick], hc0⟩

/-- Claim C5: on an invariant-satisfying (reachable) state that is not
terminal and has a legal column, minimax_ab at any depth at least 1
returns a column of the legal-move set; ai_choose yields a legal column
at every difficulty level, and returns None exactly when no legal column
exists. -/
theorem claim5_search_legal (pick : List Nat → Option Nat) (hpv : PickValid pick)
    (ai : Nat) (hai : ai = 1 ∨ ai = 2) (d : Nat) (s : GameState)
    (alpha beta : XInt) (maxi : Bool) (hg : GoodState s)
    (hgof : s.game_over = false) (hne : valid_moves s ≠ []) :
    (∃ v c, minimax_ab pick ai (d+1) s alpha beta maxi = some (v, some c) ∧
      c ∈ valid_moves s) ∧
    (∃ c, ai_choose pick s = some (some c) ∧ c ∈ valid_moves s) ∧
    (∀ t, GoodState t → (ai_choose pick t = some none ↔ valid_moves t = [])) := by
  refine ⟨?_, ((ai_choose_legal hpv s hg).2 hne), ?_⟩
  · obtain ⟨v, c, heq, _, hmem, hsome⟩ := minimax_total hpv hai (d+1) s alpha beta maxi hg
    obtain ⟨cc, rfl⟩ := hsome hgof d rfl
    exact ⟨v, cc, heq, hmem cc rfl⟩
  · intro t hgt
    constructor
    · intro hnone
      by_contra htne
      obtain ⟨c, hcc, _⟩ := (ai_choose_legal hpv t hgt).2 htne
      rw [hnone] at hcc
      cases hcc
    · intro htnil
      exact (ai_choose_legal hpv t hgt).1 htnil

/-- Claim C5, witness: the theorem applied to the initial vs-AI state with
the head oracle at depth 3+1. -/
theorem claim5_witness :
    (∃ v c, minimax_ab headPick 2 (3+1) (GameState.init "AI" "MED")
        XInt.negInf XInt.posInf true = some (v, some c) ∧
      c ∈ valid_moves (GameState.init "AI" "MED")) ∧
    (∃ c, ai_choose headPick (GameState.init "AI" "MED") = some (some c) ∧
      c ∈ valid_moves (GameState.init "AI" "MED")) ∧
    (∀ t, GoodState t → (ai_choose headPick t = some none ↔ valid_moves t = [])) :=
  claim5_search_legal headPick headPick_valid 2 (Or.inr rfl) 3 (GameState.init "AI" "MED")
    XInt.negInf XInt.posInf true (GoodState_init "AI" "MED") rfl (by decide)

theorem XInt.blt_of_blt_of_ble {a b c : XInt} (h1 : XInt.blt a b = true)
    (h2 : XInt.ble b c = true) : XInt.blt a c = true := by
  cases a <;> cases b <;> cases c <;> simp_all [XInt.blt, XInt.ble] <;> omega

theorem XInt.ble_bmin_left (a b : XInt) : XInt.ble (XInt.bmin a b) a = true := by
  unfold XInt.bmin
  by_cases h : XInt.blt b a = true
  · rw [if_pos h]
    exact XInt.ble_of_blt h
  · rw [if_neg h]
    exact XInt.ble_refl a

/-- The legal columns are enumerated in strictly ascending index order. -/
theorem valid_moves_sorted (s : GameState) : List.Sorted (· < ·) (valid_moves s) :=
  List.Pairwise.filter _ (List.sorted_lt_range 7)

/-- Extensional characterization of the maximizing loop: the running best
value never decreases, and the best column is replaced only by a strictly
improving listed column - a later column of equal value never replaces
the incumbent. -/
theorem maxStep_char {recur : GameState → XInt → XInt → Option (XInt × Option Nat)}
    {s : GameState} {mover : Nat} :
    ∀ (cols : List Nat) value alpha best beta v bb,
      maxStep recur s mover cols value alpha best beta = some (v, bb) →
      XInt.ble value v = true ∧
        ((bb = best ∧ v = value) ∨ (XInt.blt value v = true ∧ bb ∈ cols)) := by
  intro cols
  induction cols with
  | nil =>
    intro value alpha best beta v bb h
    rw [maxStep] at h
    injection h with h1
    injection h1 with hv hbb
    subst hv
    subst hbb
    exact ⟨XInt.ble_refl _, Or.inl ⟨rfl, rfl⟩⟩
  | cons col rest ih =>
    intro value alpha best beta v bb h
    cases hmk : (make_move s (Int.ofNat col) mover).toOption with
    | none =>
      simp only [maxStep, hmk] at h
      exact Option.noConfusion h
    | some pr =>
      obtain ⟨child, row⟩ := pr
      cases hrec : recur child alpha beta with
      | none =>
        simp only [maxStep, hmk, hrec] at h
        exact Option.noConfusion h
      | some pr2 =>
        obtain ⟨score, c2⟩ := pr2
        have hred : maxStep recur s mover (col :: rest) value alpha best beta =
            (let value2 := if XInt.blt value score then score else value
             let best2 := if XInt.blt value score then col else best
             let alpha2 := XInt.bmax alpha value2
             if XInt.ble beta alpha2 then some (value2, best2)
             else maxStep recur s mover rest value2 alpha2 best2 beta) := by
          simp only [maxStep, hmk, hrec]
        rw [hred] at h
        by_cases hlt : XInt.blt value score = true
        · simp only [if_pos hlt] at h
          by_cases hprune : XInt.ble beta (XInt.bmax alpha score) = true
          · rw [if_pos hprune] at h
            injection h with h1
            injection h1 with hv hbb
            subst hv
            subst hbb
            exact ⟨XInt.ble_of_blt hlt,
              Or.inr ⟨hlt, List.mem_cons_self col rest⟩⟩
          · rw [if_neg hprune] at h
            obtain ⟨hle1, hcase⟩ := ih score (XInt.bmax alpha score) col beta v bb h
            refine ⟨XInt.blt_ble_trans hlt hle1, Or.inr ?_⟩
            rcases hcase with ⟨hbb, hv⟩ | ⟨hlt2, hmem⟩
            · exact ⟨hv ▸ hlt, hbb ▸ List.mem_cons_self col rest⟩
            · exact ⟨XInt.blt_of_blt_of_ble hlt (XInt.ble_of_blt hlt2),
                List.mem_cons_of_mem _ hmem⟩
        · simp only [if_neg hlt] at h
          by_cases hprune : XInt.ble beta (XInt.bmax alpha value) = true
          · rw [if_pos hprune] at h
            injection h with h1
            injection h1 with hv hbb
            subst hv
            subst hbb
            exact ⟨XInt.ble_refl _, Or.inl ⟨rfl, rfl⟩⟩
          · rw [if_neg hprune] at h
            obtain ⟨hle1, hcase⟩ := ih value (XInt.bmax alpha value) best beta v bb h
            refine ⟨hle1, ?_⟩
            rcases hcase with ⟨hbb, hv⟩ | ⟨hlt2, hmem⟩
            · exact Or.inl ⟨hbb, hv⟩
            · exact Or.inr ⟨hlt2, List.mem_cons_of_mem _ hmem⟩

/-- The mirrored characterization of the minimizing loop. -/
theorem minStep_char {recur : GameState → XInt → XInt → Option (XInt × Option Nat)}
    {s : GameState} {mover : Nat} :
    ∀ (cols : List Nat) value alpha best beta v bb,
      minStep recur s mover cols value alpha best beta = some (v, bb) →
      XInt.ble v value = true ∧
        ((bb = best ∧ v = value) ∨ (XInt.blt v value = true ∧ bb ∈ cols)) := by
  intro cols
  induction cols with
  | nil =>
    intro value alpha best beta v bb h
    rw [minStep] at h
    injection h with h1
    injection h1 with hv hbb
    subst hv
    subst hbb
    exact ⟨XInt.ble_refl _, Or.inl ⟨rfl, rfl⟩⟩
  | cons col rest ih =>
    intro value alpha best beta v bb h
    cases hmk : (make_move s (Int.ofNat col) mover).toOption with
    | none =>
      simp only [minStep, hmk] at h
      exact Option.noConfusion h
    | some pr =>
      obtain ⟨child, row⟩ := pr
      cases hrec : recur child alpha beta with
      | none =>
        simp only [minStep, hmk, hrec] at h
        exact Option.noConfusion h
      | some pr2 =>
        obtain ⟨score, c2⟩ := pr2
        have hred : minStep recur s mover (col :: rest) value alpha best beta =
            (let value2 := if XInt.blt score value then score else value
             let best2 := if XInt.blt score value then col else best
             let beta2 := XInt.bmin beta value2
             if XInt.ble beta2 alpha then some (value2, best2)
             else minStep recur s mover rest value2 alpha best2 beta2) := by
          simp only [minStep, hmk, hrec]
        rw [hred] at h
        by_cases hlt : XInt.blt score value = true
        · simp only [if_pos hlt] at h
          by_cases hprune : XInt.ble (XInt.bmin beta score) alpha = true
          · rw [if_pos hprune] at h
            injection h with h1
            injection h1 with hv hbb
            subst hv
            subst hbb
            exact ⟨XInt.ble_of_blt hlt,
              Or.inr ⟨hlt, List.mem_cons_self col rest⟩⟩
          · rw [if_neg hprune] at h
            obtain ⟨hle1, hcase⟩ := ih score alpha col (XInt.bmin beta score) v bb h
            refine ⟨XInt.ble_trans hle1 (XInt.ble_of_blt hlt), Or.inr ?_⟩
            rcases hcase with ⟨hbb, hv⟩ | ⟨hlt2, hmem⟩
            · exact ⟨hv ▸ hlt, hbb ▸ List.mem_cons_self col rest⟩
            · exact ⟨XInt.blt_of_blt_of_ble hlt2 (XInt.ble_of_blt hlt),
                List.mem_cons_of_mem _ hmem⟩
        · simp only [if_neg hlt] at h
          by_cases hprune : XInt.ble (XInt.bmin beta value) alpha = true
          · rw [if_pos hprune] at h
            injection h with h1
            injection h1 with hv hbb
            subst hv
            subst hbb
            exact ⟨XInt.ble_refl _, Or.inl ⟨rfl, rfl⟩⟩
          · rw [if_neg hprune] at h
            obtain ⟨hle1, hcase⟩ := ih value alpha best (XInt.bmin beta value) v bb h
            refine ⟨hle1, ?_⟩
            rcases hcase with ⟨hbb, hv⟩ | ⟨hlt2, hmem⟩
            · exact Or.inl ⟨hbb, hv⟩
            · exact Or.inr ⟨hlt2, List.mem_cons_of_mem _ hmem⟩

/-- Once alpha is at least beta, the maximizing loop stops after the very
first column: the remaining columns are never explored. -/
theorem maxStep_prune {recur : GameState → XInt → XInt → Option (XInt × Option Nat)}
    {s : GameState} {mover : Nat} (col : Nat) (rest : List Nat)
    (value alpha : XInt) (best : Nat) (beta : XInt) (h : XInt.ble beta alpha = true) :
    maxStep recur s mover (col :: rest) value alpha best beta =
    maxStep recur s mover [col] value alpha best beta := by
  cases hmk : (make_move s (Int.ofNat col) mover).toOption with
  | none => simp only [maxStep, hmk]
  | some pr =>
    obtain ⟨child, row⟩ := pr
    cases hrec : recur child alpha beta with
    | none => simp only [maxStep, hmk, hrec]
    | some pr2 =>
      obtain ⟨score, c2⟩ := pr2
      by_cases hlt : XInt.blt value score = true
      · have halpha2 : XInt.ble beta (XInt.bmax alpha score) = true :=
          XInt.ble_trans h (XInt.ble_bmax_left alpha score)
        simp only [maxStep, hmk, hrec, if_pos hlt, if_pos halpha2]
      · have halpha2 : XInt.ble beta (XInt.bmax alpha value) = true :=
          XInt.ble_trans h (XInt.ble_bmax_left alpha value)
        simp only [maxStep, hmk, hrec, if_neg hlt, if_pos halpha2]

/-- The mirrored pruning fact for the minimizing loop. -/
theorem minStep_prune {recur : GameState → XInt → XInt → Option (XInt × Option Nat)}
    {s : GameState} {mover : Nat} (col : Nat) (rest : List Nat)
    (value alpha : XInt) (best : Nat) (beta : XInt) (h : XInt.ble beta alpha = true) :
    minStep recur s mover (col :: rest) value alpha best beta =
    minStep recur s mover [col] value alpha best beta := by
  cases hmk : (make_move s (Int.ofNat col) mover).toOption with
  | none => simp only [minStep, hmk]
  | some pr =>
    obtain ⟨child, row⟩ := pr
    cases hrec : recur child alpha beta with
    | none => simp only [minStep, hmk, hrec]
    | some pr2 =>
      obtain ⟨score, c2⟩ := pr2
      by_cases hlt : XInt.blt score value = true
      · have hbeta2 : XInt.ble (XInt.bmin beta score) alpha = true :=
          XInt.ble_trans (XInt.ble_bmin_left beta score) h
        simp only [minStep, hmk, hrec, if_pos hlt, if_pos hbeta2]
      · have hbeta2 : XInt.ble (XInt.bmin beta value) alpha = true :=
          XInt.ble_trans (XInt.ble_bmin_left beta value) h
        simp only [minStep, hmk, hrec, if_neg hlt, if_pos hbeta2]

/-- The maximizing loop yields a finite value whenever its running value
is finite, or starts from negative infinity with at least one column. -/
theorem maxStep_fin {recur : GameState → XInt → XInt → Option (XInt × Option Nat)}
    {s : GameState} {mover : Nat}
    (hrecfin : ∀ child a b v c, recur child a b = some (v, c) → ∃ z, v = XInt.fin z) :
    ∀ (cols : List Nat) value alpha best beta v bb,
      maxStep recur s mover cols value alpha best beta = some (v, bb) →
      ((∃ z, value = XInt.fin z) → ∃ z, v = XInt.fin z) ∧
      (value = XInt.negInf → cols ≠ [] → ∃ z, v = XInt.fin z) := by
  intro cols
  induction cols with
  | nil =>
    intro value alpha best beta v bb h
    rw [maxStep] at h
    injection h with h1
    injection h1 with hv hbb
    subst hv
    exact ⟨fun hz => hz, fun _ hne => absurd rfl hne⟩
  | cons col rest ih =>
    intro value alpha best beta v bb h
    cases hmk : (make_move s (Int.ofNat col) mover).toOption with
    | none =>
      simp only [maxStep, hmk] at h
      exact Option.noConfusion h
    | some pr =>
      obtain ⟨child, row⟩ := pr
      cases hrec : recur child alpha beta with
      | none =>
        simp only [maxStep, hmk, hrec] at h
        exact Option.noConfusion h
      | some pr2 =>
        obtain ⟨score, c2⟩ := pr2
        obtain ⟨z0, hz0⟩ := hrecfin child alpha beta score c2 hrec
        have hred : maxStep recur s mover (col :: rest) value alpha best beta =
            (let value2 := if XInt.blt value score then score else value
             let best2 := if XInt.blt value score then col else best
             let alpha2 := XInt.bmax alpha value2
             if XInt.ble beta alpha2 then some (value2, best2)
             else maxStep recur s mover rest value2 alpha2 best2 beta) := by
          simp only [maxStep, hmk, hrec]
        rw [hred] at h
        by_cases hlt : XInt.blt value score = true
        · simp only [if_pos hlt] at h
          by_cases hprune : XInt.ble beta (XInt.bmax alpha score) = true
          · rw [if_pos hprune] at h
            injection h with h1
            injection h1 with hv hbb
            subst hv
            exact ⟨fun _ => ⟨z0, hz0⟩, fun _ _ => ⟨z0, hz0⟩⟩
          · rw [if_neg hprune] at h
            have hih := ih score (XInt.bmax alpha score) col beta v bb h
            exact ⟨fun _ => hih.1 ⟨z0, hz0⟩, fun _ _ => hih.1 ⟨z0, hz0⟩⟩
        · have hvne : value ≠ XInt.negInf := by
            intro hv
            rw [hv, hz0] at hlt
            exact hlt rfl
          simp only [if_neg hlt] at h
          by_cases hprune : XInt.ble beta (XInt.bmax alpha value) = true
          · rw [if_pos hprune] at h
            injection h with h1
            injection h1 with hv hbb
            subst hv
            exact ⟨fun hz => hz, fun hv => absurd hv hvne⟩
          · rw [if_neg hprune] at h
            have hih := ih value (XInt.bmax alpha value) best beta v bb h
            exact ⟨hih.1, fun hv => absurd hv hvne⟩

/-- The mirrored finiteness fact for the minimizing loop. -/
theorem minStep_fin {recur : GameState → XInt → XInt → Option (XInt × Option Nat)}
    {s : GameState} {mover : Nat}
    (hrecfin : ∀ child a b v c, recur child a b = some (v, c) → ∃ z, v = XInt.fin z) :
    ∀ (cols : List Nat) value alpha best beta v bb,
      minStep recur s mover cols value alpha best beta = some (v, bb) →
      ((∃ z, value = XInt.fin z) → ∃ z, v = XInt.fin z) ∧
      (value = XInt.posInf → cols ≠ [] → ∃ z, v = XInt.fin z) := by
  intro cols
  induction cols with
  | nil =>
    intro value alpha best beta v bb h
    rw [minStep] at h
    injection h with h1
    injection h1 with hv hbb
    subst hv
    exact ⟨fun hz => hz, fun _ hne => absurd rfl hne⟩
  | cons col rest ih =>
    intro value alpha best beta v bb h
    cases hmk : (make_move s (Int.ofNat col) mover).toOption with
    | none =>
      simp only [minStep, hmk] at h
      exact Option.noConfusion h
    | some pr =>
      obtain ⟨child, row⟩ := pr
      cases hrec : recur child alpha beta with
      | none =>
        simp only [minStep, hmk, hrec] at h
        exact Option.noConfusion h
      | some pr2 =>
        obtain ⟨score, c2⟩ := pr2
        obtain ⟨z0, hz0⟩ := hrecfin child alpha beta score c2 hrec
        have hred : minStep recur s mover (col :: rest) value alpha best beta =
            (let value2 := if XInt.blt score value then score else value
             let best2 := if XInt.blt score value then col else best
             let beta2 := XInt.bmin beta value2
             if XInt.ble beta2 alpha then some (value2, best2)
             else minStep recur s mover rest value2 alpha best2 beta2) := by
          simp only [minStep, hmk, hrec]
        rw [hred] at h
        by_cases hlt : XInt.blt score value = true
        · simp only [if_pos hlt] at h
          by_cases hprune : XInt.ble (XInt.bmin beta score) alpha = true
          · rw [if_pos hprune] at h
            injection h with h1
            injection h1 with hv hbb
            subst hv
            exact ⟨fun _ => ⟨z0, hz0⟩, fun _ _ => ⟨z0, hz0⟩⟩
          · rw [if_neg hprune] at h
            have hih := ih score alpha col (XInt.bmin beta score) v bb h
            exact ⟨fun _ => hih.1 ⟨z0, hz0⟩, fun _ _ => hih.1 ⟨z0, hz0⟩⟩
        · have hvne : value ≠ XInt.posInf := by
            intro hv
            rw [hv, hz0] at hlt
            exact hlt rfl
          simp only [if_neg hlt] at h
          by_cases hprune : XInt.ble (XInt.bmin beta value) alpha = true
          · rw [if_pos hprune] at h
            injection h with h1
            injection h1 with hv hbb
            subst hv
            exact ⟨fun hz => hz, fun hv => absurd hv hvne⟩
          · rw [if_neg hprune] at h
            have hih := ih value alpha best (XInt.bmin beta value) v bb h
            exact ⟨hih.1, fun hv => absurd hv hvne⟩

/-- Every successful minimax_ab call returns a finite value (the sentinel
and heuristic leaves are integers, and a loop that runs at all starts by
adopting its first child score). -/
theorem minimax_fin {pick : List Nat → Option Nat} (hpv : PickValid pick) (ai : Nat) :
    ∀ d s alpha beta maxi v c,
      minimax_ab pick ai d s alpha beta maxi = some (v, c) → ∃ z, v = XInt.fin z := by
  intro d
  induction d with
  | zero =>
    intro s alpha beta maxi v c h
    by_cases hgo : s.game_over = true
    · rw [minimax_terminal pick ai 0 s alpha beta maxi hgo] at h
      injection h with h1
      injection h1 with hv _
      exact ⟨_, hv.symm⟩
    · have hgof : s.game_over = false := by
        revert hgo
        cases s.game_over <;> simp
      simp only [minimax_ab, hgof, Bool.false_eq_true, if_false] at h
      injection h with h1
      injection h1 with hv _
      exact ⟨_, hv.symm⟩
  | succ d ih =>
    intro s alpha beta maxi v c h
    by_cases hgo : s.game_over = true
    · rw [minimax_terminal pick ai (d+1) s alpha beta maxi hgo] at h
      injection h with h1
      injection h1 with hv _
      exact ⟨_, hv.symm⟩
    · have hgof : s.game_over = false := by
        revert hgo
        cases s.game_over <;> simp
      cases hmaxi : maxi with
      | true =>
        rw [hmaxi] at h
        simp only [minimax_ab, hgof, Bool.false_eq_true, if_false, eq_self_iff_true,
          if_true] at h
        cases hpick : pick (valid_moves s) with
        | none =>
          simp only [hpick] at h
          exact Option.noConfusion h
        | some b0 =>
          have hne : valid_moves s ≠ [] := by
            intro hnil
            have hpn := (hpv (valid_moves s)).2.mpr hnil
            rw [hpn] at hpick
            exact Option.noConfusion hpick
          simp only [hpick] at h
          cases hloop : maxStep (fun c a b => minimax_ab pick ai d c a b false) s ai
              (valid_moves s) XInt.negInf alpha b0 beta with
          | none =>
            simp only [hloop] at h
            exact Option.noConfusion h
          | some pr =>
            obtain ⟨v0, bb⟩ := pr
            simp only [hloop] at h
            injection h with h1
            injection h1 with hv _
            subst hv
            have hrecfin : ∀ child a b vv cc,
                (fun c a b => minimax_ab pick ai d c a b false) child a b = some (vv, cc) →
                ∃ z, vv = XInt.fin z :=
              fun child a b vv cc hh => ih child a b false vv cc hh
            exact (maxStep_fin hrecfin (valid_moves s) XInt.negInf alpha b0 beta v0 bb
              hloop).2 rfl hne
      | false =>
        rw [hmaxi] at h
        simp only [minimax_ab, hgof, Bool.false_eq_true, if_false, eq_self_iff_true,
          if_true] at h
        cases hpick : pick (valid_moves s) with
        | none =>
          simp only [hpick] at h
          exact Option.noConfusion h
        | some b0 =>
          have hne : valid_moves s ≠ [] := by
            intro hnil
            have hpn := (hpv (valid_moves s)).2.mpr hnil
            rw [hpn] at hpick
            exact Option.noConfusion hpick
          simp only [hpick] at h
          cases hloop : minStep (fun c a b => minimax_ab pick ai d c a b true) s
              (if ai = 2 then 1 else 2) (valid_moves s) XInt.posInf alpha b0 beta with
          | none =>
            simp only [hloop] at h
            exact Option.noConfusion h
          | some pr =>
            obtain ⟨v0, bb⟩ := pr
            simp only [hloop] at h
            injection h with h1
            injection h1 with hv _
            subst hv
            have hrecfin : ∀ child a b vv cc,
                (fun c a b => minimax_ab pick ai d c a b true) child a b = some (vv, cc) →
                ∃ z, vv = XInt.fin z :=
              fun child a b vv cc hh => ih child a b true vv cc hh
            exact (minStep_fin hrecfin (valid_moves s) XInt.posInf alpha b0 beta v0 bb
              hloop).2 rfl hne

/-- The maximizing loop started at negative infinity overwrites its
initial best column at the very first step, so the oracle seed is
irrelevant to the result. -/
theorem maxStep_first_best {recur : GameState → XInt → XInt → Option (XInt × Option Nat)}
    {s : GameState} {mover : Nat}
    (hrecfin : ∀ child a b v c, recur child a b = some (v, c) → ∃ z, v = XInt.fin z)
    (col : Nat) (rest : List Nat) (alpha beta : XInt) (b01 b02 : Nat) :
    maxStep recur s mover (col :: rest) XInt.negInf alpha b01 beta =
    maxStep recur s mover (col :: rest) XInt.negInf alpha b02 beta := by
  cases hmk : (make_move s (Int.ofNat col) mover).toOption with
  | none => simp only [maxStep, hmk]
  | some pr =>
    obtain ⟨child, row⟩ := pr
    cases hrec : recur child alpha beta with
    | none => simp only [maxStep, hmk, hrec]
    | some pr2 =>
      obtain ⟨score, c2⟩ := pr2
      obtain ⟨z0, hz0⟩ := hrecfin child alpha beta score c2 hrec
      have hlt : XInt.blt XInt.negInf score = true := by
        rw [hz0]
        rfl
      simp only [maxStep, hmk, hrec, if_pos hlt]

/-- The minimizing loop started at positive infinity likewise ignores its
oracle-seeded initial best column. -/
theorem minStep_first_best {recur : GameState → XInt → XInt → Option (XInt × Option Nat)}
    {s : GameState} {mover : Nat}
    (hrecfin : ∀ child a b v c, recur child a b = some (v, c) → ∃ z, v = XInt.fin z)
    (col : Nat) (rest : List Nat) (alpha beta : XInt) (b01 b02 : Nat) :
    minStep recur s mover (col :: rest) XInt.posInf alpha b01 beta =
    minStep recur s mover (col :: rest) XInt.posInf alpha b02 beta := by
  cases hmk : (make_move s (Int.ofNat col) mover).toOption with
  | none => simp only [minStep, hmk]
  | some pr =>
    obtain ⟨child, row⟩ := pr
    cases hrec : recur child alpha beta with
    | none => simp only [minStep, hmk, hrec]
    | some pr2 =>
      obtain ⟨score, c2⟩ := pr2
      obtain ⟨z0, hz0⟩ := hrecfin child alpha beta score c2 hrec
      have hlt : XInt.blt score XInt.posInf = true := by
        rw [hz0]
        rfl
      simp only [minStep, hmk, hrec, if_pos hlt]

/-- The search result does not depend on which valid oracle models
random.choice: the seeded initial best column is always overwritten. -/
theorem minimax_deterministic {pick1 pick2 : List Nat → Option Nat}
    (h1 : PickValid pick1) (h2 : PickValid pick2) (ai : Nat) :
    ∀ d s alpha beta maxi,
      minimax_ab pick1 ai d s alpha beta maxi = minimax_ab pick2 ai d s alpha beta maxi := by
  intro d
  induction d with
  | zero => intro s alpha beta maxi; rfl
  | succ d ih =>
    intro s alpha beta maxi
    by_cases hgo : s.game_over = true
    · rw [minimax_terminal pick1 ai (d+1) s alpha beta maxi hgo,
        minimax_terminal pick2 ai (d+1) s alpha beta maxi hgo]
    · have hgof : s.game_over = false := by
        revert hgo
        cases s.game_over <;> simp
      have hext1 : (fun c a b => minimax_ab pick1 ai d c a b false)
          = (fun c a b => minimax_ab pick2 ai d c a b false) :=
        funext fun c => funext fun a => funext fun b => ih c a b false
      have hext2 : (fun c a b => minimax_ab pick1 ai d c a b true)
          = (fun c a b => minimax_ab pick2 ai d c a b true) :=
        funext fun c => funext fun a => funext fun b => ih c a b true
      cases hmaxi : maxi with
      | true =>
        simp only [minimax_ab, hgof, Bool.false_eq_true, if_false, eq_self_iff_true, if_true]
        cases hleg : valid_moves s with
        | nil =>
          rw [(h1 []).2.mpr rfl, (h2 []).2.mpr rfl]
        | cons c0 rest =>
          cases hp1 : pick1 (c0 :: rest) with
          | none => exact absurd ((h1 _).2.mp hp1) (by simp)
          | some b01 =>
            cases hp2 : pick2 (c0 :: rest) with
            | none => exact absurd ((h2 _).2.mp hp2) (by simp)
            | some b02 =>
              have hrecfin2 : ∀ child a b v c,
                  (fun c a b => minimax_ab pick2 ai d c a b false) child a b = some (v, c) →
                  ∃ z, v = XInt.fin z :=
                fun child a b v c hh => minimax_fin h2 ai d child a b false v c hh
              simp only [hp1, hp2, hext1]
              rw [maxStep_first_best hrecfin2 c0 rest alpha beta b01 b02]
      | false =>
        simp only [minimax_ab, hgof, Bool.false_eq_true, if_false, eq_self_iff_true, if_true]
        cases hleg : valid_moves s with
        | nil =>
          rw [(h1 []).2.mpr rfl, (h2 []).2.mpr rfl]
        | cons c0 rest =>
          cases hp1 : pick1 (c0 :: rest) with
          | none => exact absurd ((h1 _).2.mp hp1) (by simp)
          | some b01 =>
            cases hp2 : pick2 (c0 :: rest) with
            | none => exact absurd ((h2 _).2.mp hp2) (by simp)
            | some b02 =>
              have hrecfin2 : ∀ child a b v c,
                  (fun c a b => minimax_ab pick2 ai d c a b true) child a b = some (v, c) →
                  ∃ z, v = XInt.fin z :=
                fun child a b v c hh => minimax_fin h2 ai d child a b true v c hh
              simp only [hp1, hp2, hext2]
              rw [minStep_first_best hrecfin2 c0 rest alpha beta b01 b02]

/-- Claim C6: legal columns are enumerated in ascending order; in both
loops the best column is replaced only by a strictly improving column
(so among equal-valued columns the first-seen one is returned); once
alpha is at least beta the remaining columns are not explored; and the
(value, column) result of minimax_ab is independent of the random.choice
oracle, hence a deterministic function of state, depth, alpha, beta,
maximizing flag and adversary player. -/
theorem claim6_first_wins_prune_deterministic (pick1 pick2 : List Nat → Option Nat)
    (h1 : PickValid pick1) (h2 : PickValid pick2) :
    (∀ s, List.Sorted (· < ·) (valid_moves s)) ∧
    (∀ (recur : GameState → XInt → XInt → Option (XInt × Option Nat))
        (s : GameState) (mover : Nat) cols value alpha best beta v bb,
      maxStep recur s mover cols value alpha best beta = some (v, bb) →
      XInt.ble value v = true ∧
        ((bb = best ∧ v = value) ∨ (XInt.blt value v = true ∧ bb ∈ cols))) ∧
    (∀ (recur : GameState → XInt → XInt → Option (XInt × Option Nat))
        (s : GameState) (mover : Nat) cols value alpha best beta v bb,
      minStep recur s mover cols value alpha best beta = some (v, bb) →
      XInt.ble v value = true ∧
        ((bb = best ∧ v = value) ∨ (XInt.blt v value = true ∧ bb ∈ cols))) ∧
    (∀ (recur : GameState → XInt → XInt → Option (XInt × Option Nat))
        (s : GameState) (mover col : Nat) rest value alpha (best : Nat) beta,
      XInt.ble beta alpha = true →
      maxStep recur s mover (col :: rest) value alpha best beta =
        maxStep recur s mover [col] value alpha best beta) ∧
    (∀ (recur : GameState → XInt → XInt → Option (XInt × Option Nat))
        (s : GameState) (mover col : Nat) rest value alpha (best : Nat) beta,
      XInt.ble beta alpha = true →
      minStep recur s mover (col :: rest) value alpha best beta =
        minStep recur s mover [col] value alpha best beta) ∧
    (∀ ai d s alpha beta maxi,
      minimax_ab pick1 ai d s alpha beta maxi = minimax_ab pick2 ai d s alpha beta maxi) :=
  ⟨valid_moves_sorted,
   fun _ _ _ cols _ _ _ _ _ _ h => maxStep_char cols _ _ _ _ _ _ h,
   fun _ _ _ cols _ _ _ _ _ _ h => minStep_char cols _ _ _ _ _ _ h,
   fun _ _ _ col rest value alpha best beta h => maxStep_prune col rest value alpha best beta h,
   fun _ _ _ col rest value alpha best beta h => minStep_prune col rest value alpha best beta h,
   minimax_deterministic h1 h2⟩

/-- Claim C6, witness: the theorem instantiated with the head oracle on
both sides. -/
theorem claim6_witness :
    PickValid headPick ∧
    (∀ ai d s alpha beta maxi,
      minimax_ab headPick ai d s alpha beta maxi
        = minimax_ab headPick ai d s alpha beta maxi) ∧
    (∀ s, List.Sorted (· < ·) (valid_moves s)) :=
  ⟨headPick_valid,
   (claim6_first_wins_prune_deterministic headPick headPick headPick_valid
      headPick_valid).2.2.2.2.2,
   (claim6_first_wins_prune_deterministic headPick headPick headPick_valid
      headPick_valid).1⟩

/-! ## Network handler -/

/-- Messages the handler can send back over the wire. -/
inductive NetMsg where
  | gameState (st : GameState) : NetMsg
  | reject (reason : String) : NetMsg
  | error (message : String) : NetMsg
deriving DecidableEq

/-- Incoming protocol messages (the payload of a GAME_STATE frame is none
when the state field is missing or empty). -/
inductive InMsg where
  | join : InMsg
  | joinAck : InMsg
  | gameState (st : Option GameState) : InMsg
  | playerMove (col : Int) : InMsg
  | reject (reason : String) : InMsg
  | disconnect : InMsg
  | error (message : String) : InMsg
  | unknown : InMsg
deriving DecidableEq

/-- Result of one handler invocation.  The held state is modelled with an
object identity tag so that an in-place field write (same tag, new value)
is distinguishable from a wholesale replacement (fresh tag); errTxt,
waiting and firstTime are none when the handler leaves the corresponding
container entry untouched. -/
structure HRes where
  held : Option (Nat × GameState)
  sent : List NetMsg
  errTxt : Option String
  waiting : Option Bool
  firstTime : Option Bool
deriving DecidableEq

/-- handle_network_message.  r models random.choice([1, 2]) in the JOIN
branch; freshId is the identity of any newly constructed state.  A JOIN
or PLAYER_MOVE whose guard fails (wrong role, no state) falls through the
elif chain to the unknown-type branch, which does nothing. -/
def handle_network_message (isHost : Bool) (held : Option (Nat × GameState))
    (msg : InMsg) (r : Nat) (freshId : Nat) : HRes :=
  match msg with
  | InMsg.join =>
    if isHost then
      match held with
      | some (id, s) =>
        if ¬ s.first_player_decided then
          let s2 := { s with current_player := r, first_player_decided := true }
          { held := some (id, s2)
          , sent := [NetMsg.gameState s2]
          , errTxt := none
          , waiting := some false
          , firstTime := none }
        else
          { held := held
          , sent := [NetMsg.gameState s]
          , errTxt := none
          , waiting := some false
          , firstTime := none }
      | none =>
        { held := none
        , sent := [NetMsg.error "Game not initialized"]
        , errTxt := none
        , waiting := some false
        , firstTime := none }
    else
      { held := held, sent := [], errTxt := none, waiting := none, firstTime := none }
  | InMsg.joinAck =>
    { held := held, sent := [], errTxt := some "", waiting := none, firstTime := none }
  | InMsg.gameState jso =>
    match jso with
    | none =>
      { held := held
      , sent := []
      , errTxt := some "Invalid game state"
      , waiting := none
      , firstTime := none }
    | some st =>
      let st2 := { st with
          mode := (if ¬ isHost then "ONLINE_CLIENT" else "ONLINE_HOST")
        , local_player := (if ¬ isHost then 2 else 1) }
      { held := some (freshId, st2)
      , sent := []
      , errTxt := some ""
      , waiting := none
      , firstTime := if held = none then some true else none }
  | InMsg.playerMove col =>
    if isHost then
      match held with
      | some (id, s) =>
        if s.current_player = 2 ∧ 0 ≤ col ∧ col < 7 ∧ cell s.board 0 col.toNat = 0 then
          match make_move s col 2 with
          | Except.ok (s2, _) =>
            { held := some (freshId, s2)
            , sent := [NetMsg.gameState s2]
            , errTxt := none
            , waiting := none
            , firstTime := none }
          | Except.error e =>
            { held := some (id, s)
            , sent := [NetMsg.reject e]
            , errTxt := none
            , waiting := none
            , firstTime := none }
        else
          { held := some (id, s)
          , sent := [NetMsg.reject
              (if s.current_player ≠ 2 then "Not your turn" else "Invalid column")]
          , errTxt := none
          , waiting := none
          , firstTime := none }
      | none =>
        { held := held, sent := [], errTxt := none, waiting := none, firstTime := none }
    else
      { held := held, sent := [], errTxt := none, waiting := none, firstTime := none }
  | InMsg.reject reason =>
    { held := held
    , sent := []
    , errTxt := some ("Move rejected: " ++ reason)
    , waiting := none
    , firstTime := none }
  | InMsg.disconnect =>
    { held := none
    , sent := []
    , errTxt := some "Disconnected from opponent"
    , waiting := some false
    , firstTime := some false }
  | InMsg.error m =>
    { held := held
    , sent := []
    , errTxt := some ("Error: " ++ m)
    , waiting := none
    , firstTime := none }
  | InMsg.unknown =>
    { held := held, sent := [], errTxt := none, waiting := none, firstTime := none }

/-! ## Claim C7: host-side move validation -/

/-- Claim C7: when the canonical state says it is player 1's turn, a
PlayerMove from the client (player 2) is answered with MoveRejected
reason "Not your turn" and the canonical state object is untouched;
more generally every rejected PlayerMove (wrong turn, column out of
range, column full) leaves the state untouched and sends a single
MoveRejected, while an accepted move installs the new state produced by
make_move and broadcasts it as a full GameStateSync. -/
theorem claim7_host_authority (id : Nat) (s : GameState) (col : Int) (r fid : Nat) :
    (s.current_player = 1 →
      (handle_network_message true (some (id, s)) (InMsg.playerMove col) r fid).held
          = some (id, s) ∧
      (handle_network_message true (some (id, s)) (InMsg.playerMove col) r fid).sent
          = [NetMsg.reject "Not your turn"]) ∧
    ((s.current_player ≠ 2 ∨ col < 0 ∨ 7 ≤ col ∨ cell s.board 0 col.toNat ≠ 0) →
      (handle_network_message true (some (id, s)) (InMsg.playerMove col) r fid).held
          = some (id, s) ∧
      ∃ reason,
        (handle_network_message true (some (id, s)) (InMsg.playerMove col) r fid).sent
          = [NetMsg.reject reason]) ∧
    (s.current_player = 2 → 0 ≤ col → col < 7 → cell s.board 0 col.toNat = 0 →
      ∃ s2 row, make_move s col 2 = Except.ok (s2, row) ∧
        (handle_network_message true (some (id, s)) (InMsg.playerMove col) r fid).held
          = some (fid, s2) ∧
        (handle_network_message true (some (id, s)) (InMsg.playerMove col) r fid).sent
          = [NetMsg.gameState s2]) := by
  refine ⟨?_, ?_, ?_⟩
  · intro h1
    have hguard : ¬ (s.current_player = 2 ∧ 0 ≤ col ∧ col < 7 ∧
        cell s.board 0 col.toNat = 0) := by
      intro hc
      rw [h1] at hc
      exact absurd hc.1 (by omega)
    have hreason : (if s.current_player ≠ 2 then "Not your turn" else "Invalid column")
        = "Not your turn" := by
      rw [if_pos (by rw [h1]; omega)]
    constructor
    · simp only [handle_network_message, if_pos rfl, if_true, if_neg hguard]
    · simp only [handle_network_message, if_pos rfl, if_true, if_neg hguard, hreason]
  · intro hrej
    have hguard : ¬ (s.current_player = 2 ∧ 0 ≤ col ∧ col < 7 ∧
        cell s.board 0 col.toNat = 0) := by
      intro hc
      rcases hrej with h | h | h | h
      · exact h hc.1
      · omega
      · omega
      · exact h hc.2.2.2
    refine ⟨?_, (if s.current_player ≠ 2 then "Not your turn" else "Invalid column"), ?_⟩
    · simp only [handle_network_message, if_pos rfl, if_true, if_neg hguard]
    · simp only [handle_network_message, if_pos rfl, if_true, if_neg hguard]
  · intro h2 hc0 hc7 htop
    have hguard : s.current_player = 2 ∧ 0 ≤ col ∧ col < 7 ∧
        cell s.board 0 col.toNat = 0 := ⟨h2, hc0, hc7, htop⟩
    have hctn7 : col.toNat < 7 := by omega
    obtain ⟨row, _, _, _, heq⟩ := make_move_nat_eq 2 hctn7 htop
    have hcol : Int.ofNat col.toNat = col := Int.toNat_of_nonneg hc0
    rw [hcol] at heq
    refine ⟨_, row, heq, ?_, ?_⟩
    · simp only [handle_network_message, if_pos rfl, if_true, if_pos hguard, heq]
    · simp only [handle_network_message, if_pos rfl, if_true, if_pos hguard, heq]

/-- A concrete host state where it is player 1's turn. -/
def hostTurn1 : GameState :=
  { GameState.init "ONLINE_HOST" "EASY" with current_player := 1 }

/-- Claim C7, witness: the scenario of the spec - current_player 1, a
client move into column 0 - is rejected with reason "Not your turn" and
the state object is untouched. -/
theorem claim7_witness :
    hostTurn1.current_player = 1 ∧
    (handle_network_message true (some (5, hostTurn1)) (InMsg.playerMove 0) 1 6).held
        = some (5, hostTurn1) ∧
    (handle_network_message true (some (5, hostTurn1)) (InMsg.playerMove 0) 1 6).sent
        = [NetMsg.reject "Not your turn"] :=
  ⟨rfl, (claim7_host_authority 5 hostTurn1 0 1 6).1 rfl⟩

/-! ## Claim C8: replace-only discipline of the handler -/

/-- A fresh host state whose first player has not been decided yet. -/
def hostUndecided : GameState :=
  { GameState.init "ONLINE_HOST" "EASY" with first_player_decided := false }

/-- Claim C8, counterexample: handling a JoinRequest on the host mutates
the held state object in place - the holder still contains the object
with identity 0, but its current_player and first_player_decided fields
have changed - contradicting the claim that every branch either leaves
the held object untouched or installs a freshly constructed state. -/
theorem claim8_counterexample :
    (handle_network_message true (some (0, hostUndecided)) InMsg.join 2 1).held
        = some (0, { hostUndecided with current_player := 2, first_player_decided := true }) ∧
    { hostUndecided with current_player := 2, first_player_decided := true } ≠ hostUndecided := by
  constructor
  · rfl
  · decide

/-- Claim C8 (amended): every branch of the handler other than
JoinRequest only ever leaves the held state untouched, clears it, or
installs a freshly constructed state under the fresh identity; the
JoinRequest branch alone, on a host whose first player is undecided,
writes the current_player and first_player_decided fields of the held
object in place (same identity). -/
theorem claim8_replace_only (isHost : Bool) (held : Option (Nat × GameState))
    (msg : InMsg) (r fid : Nat)
    (hfresh : ∀ id s, held = some (id, s) → id ≠ fid) :
    (msg ≠ InMsg.join →
      (handle_network_message isHost held msg r fid).held = held ∨
      (handle_network_message isHost held msg r fid).held = none ∨
      (∃ s2, (handle_network_message isHost held msg r fid).held = some (fid, s2))) ∧
    (msg = InMsg.join →
      (handle_network_message isHost held msg r fid).held = held ∨
      (∃ id s, held = some (id, s) ∧ s.first_player_decided = false ∧
        (handle_network_message isHost held msg r fid).held
          = some (id, { s with current_player := r, first_player_decided := true }))) := by
  constructor
  · intro hnj
    cases msg with
    | join => exact absurd rfl hnj
    | joinAck => exact Or.inl rfl
    | gameState jso =>
      cases jso with
      | none => exact Or.inl rfl
      | some st => exact Or.inr (Or.inr ⟨_, rfl⟩)
    | playerMove col =>
      cases hbool : isHost with
      | false => exact Or.inl (by simp [handle_network_message])
      | true =>
        cases held with
        | none => exact Or.inl (by simp [handle_network_message])
        | some pr =>
          obtain ⟨id, s⟩ := pr
          by_cases hguard : s.current_player = 2 ∧ 0 ≤ col ∧ col < 7 ∧
              cell s.board 0 col.toNat = 0
          · cases hmk : make_move s col 2 with
            | ok pr2 =>
              obtain ⟨s2, row⟩ := pr2
              refine Or.inr (Or.inr ⟨s2, ?_⟩)
              simp only [handle_network_message, if_pos rfl, if_true, if_pos hguard, hmk]
            | error e =>
              refine Or.inl ?_
              simp only [handle_network_message, if_pos rfl, if_true, if_pos hguard, hmk]
          · refine Or.inl ?_
            simp only [handle_network_message, if_pos rfl, if_true, if_neg hguard]
    | reject reason => exact Or.inl rfl
    | disconnect => exact Or.inr (Or.inl rfl)
    | error m => exact Or.inl rfl
    | unknown => exact Or.inl rfl
  · intro hj
    subst hj
    cases hbool : isHost with
    | false => exact Or.inl (by simp [handle_network_message])
    | true =>
      cases held with
      | none => exact Or.inl (by simp [handle_network_message])
      | some pr =>
        obtain ⟨id, s⟩ := pr
        by_cases hdec : s.first_player_decided = true
        · have hcond : ¬ (¬ s.first_player_decided = true) := by simp [hdec]
          refine Or.inl ?_
          simp only [handle_network_message, if_true, if_neg hcond]
        · have hdf : s.first_player_decided = false := by
            revert hdec
            cases s.first_player_decided <;> simp
          have hcond : ¬ s.first_player_decided = true := by simp [hdf]
          refine Or.inr ⟨id, s, rfl, hdf, ?_⟩
          simp only [handle_network_message, if_true, if_pos hcond]

/-- Claim C8, witness: the amended theorem applied to a host holding an
already-decided state (JoinRequest leaves it untouched) and to a
PlayerMove (which installs a fresh object). -/
theorem claim8_witness :
    (∀ id s, (some (7, hostTurn1) : Option (Nat × GameState)) = some (id, s) → id ≠ 9) ∧
    ((InMsg.disconnect ≠ InMsg.join →
      (handle_network_message true (some (7, hostTurn1)) InMsg.disconnect 1 9).held
          = some (7, hostTurn1) ∨
      (handle_network_message true (some (7, hostTurn1)) InMsg.disconnect 1 9).held = none ∨
      (∃ s2, (handle_network_message true (some (7, hostTurn1)) InMsg.disconnect 1 9).held
          = some (9, s2))) ∧
    (InMsg.disconnect = InMsg.join →
      (handle_network_message true (some (7, hostTurn1)) InMsg.disconnect 1 9).held
          = some (7, hostTurn1) ∨
      (∃ id s, (some (7, hostTurn1) : Option (Nat × GameState)) = some (id, s) ∧
        s.first_player_decided = false ∧
        (handle_network_message true (some (7, hostTurn1)) InMsg.disconnect 1 9).held
          = some (id, { s with current_player := 1, first_player_decided := true })))) :=
  ⟨fun id s h => by
      injection h with h1
      injection h1 with h2 _
      omega,
   claim8_replace_only true (some (7, hostTurn1)) InMsg.disconnect 1 9
     (fun id s h => by
        injection h with h1
        injection h1 with h2 _
        omega)⟩
